import Mathlib

/-!
# AMX Mod X regular-expression module: `RegEx` (dlls/regex/CRegEx.cpp, CRegEx.h)

A shallow embedding of the `RegEx` class.  The PCRE library is an external
collaborator: it is a parameter (`Engine`) giving `pcre_compile` and
`pcre_exec`.  Memory errors of the C++ (a read or write outside an array, a
`ke::Vector` precondition violation) are the result `Res.fault`; the
`while` loop of `MatchAll` runs on fuel and `Res.outOfFuel` is the result
when the fuel is used up.

C `int` values are `Int`.  The only conversion where wrap-around is visible,
`(size_t)s` in `GetSubstring`, is written with an explicit modulus; the sums
and differences of span counts and offsets are taken not to overflow.
-/

namespace RegEx

/-! ## C strings and arrays -/

/-- The chars found at a `const char *`, in order.  A string ends at its first
NUL char, or at the end of the list when it holds none. -/
abbrev CString := List Char

/-- The terminator `'\0'`. -/
def NUL : Char := Char.ofNat 0

/-- The test `c != '\0'`. -/
def notNUL (c : Char) : Bool := decide (c ≠ NUL)

/-- `strlen`: the number of chars before the terminator. -/
def strlen (s : CString) : Nat := (s.takeWhile notNUL).length

/-- `p = new char[strlen(str) + 1]; strcpy(p, str)`: the new array holds the
chars before the terminator and then the terminator. -/
def strcpy (str : CString) : CString := str.takeWhile notNUL ++ [NUL]

/-- `INT_MIN <= s <= INT_MAX` for the 32-bit `int` of the source. -/
def isInt (s : Int) : Prop := -2147483648 ≤ s ∧ s ≤ 2147483647

instance (s : Int) : Decidable (isInt s) := by unfold isInt; infer_instance

/-- `(size_t)s` for an `int s` (32-bit `size_t`; for `s >= 0` the width does
not matter). -/
def size_t_cast (s : Int) : Nat := (s % 4294967296).toNat

/-! ## Constants of pcre.h

`pcre.h` is not among the sources.  The option constants are four independent
bits and "no match" is a negative result different from every error code; the
values below are those of the PCRE header. -/

/-- Modelled from the spec: `PCRE_CASELESS` of `pcre.h`, the option bit for
case-insensitive matching. -/
def PCRE_CASELESS : Nat := 1

/-- Modelled from the spec: `PCRE_MULTILINE` of `pcre.h`, the option bit for
`^`/`$` matching at line boundaries. -/
def PCRE_MULTILINE : Nat := 2

/-- Modelled from the spec: `PCRE_DOTALL` of `pcre.h`, the option bit for a dot
that matches newline. -/
def PCRE_DOTALL : Nat := 4

/-- Modelled from the spec: `PCRE_EXTENDED` of `pcre.h`, the option bit for the
free-spacing syntax. -/
def PCRE_EXTENDED : Nat := 8

/-- Modelled from the spec: `PCRE_ERROR_NOMATCH` of `pcre.h`, the negative
result of `pcre_exec` that means "no match". -/
def PCRE_ERROR_NOMATCH : Int := -1

/-- The `30` passed as `ovecsize` to `pcre_exec`, and the length of
`int ovector[30]`. -/
def OVECSIZE : Nat := 30

/-! ## Data model -/

/-- `struct RegExSub { int start, end; }` (`end` is written `end_`). -/
structure RegExSub where
  start : Int
  end_ : Int
deriving DecidableEq, Repr

/-- `int ovector[30]`. -/
abbrev Ovector := { l : List Int // l.length = OVECSIZE }

/-- `ovector[i]`; `none` when `i` is outside the array. -/
def Ovector.read (ov : Ovector) (i : Nat) : Option Int := ov.val[i]?

/-- The PCRE library, for a type `P` of compiled patterns (`pcre`).

* `pcre_compile pattern options errptr erroffset` is
  `pcre_compile(pattern, options, &mError, &mErrorOffset, NULL)`: the arguments
  `errptr`, `erroffset` are the values of `mError` and `mErrorOffset` before
  the call, the result is the returned pointer (`none` is `NULL`) and the
  values of `mError` and `mErrorOffset` after the call.
* `pcre_exec code subject length startoffset options ovector ovecsize` is
  `pcre_exec(code, NULL, subject, length, startoffset, options, ovector, ovecsize)`:
  `ovector` is the array before the call, the result is the returned `int` and
  the array after the call. -/
structure Engine (P : Type) where
  pcre_compile : CString → Int → Option CString → Int → Option P × Option CString × Int
  pcre_exec : P → CString → Int → Int → Int → Ovector → Nat → Int × Ovector

end RegEx

/-- The fields of `class RegEx`.  `subject` is the array allocated by
`Match`/`MatchAll` (`none` is `NULL`).  `am-vector.h` is not among the
sources: `mSubStrings`, a `ke::Vector<RegExSub>`, is the ordered sequence of
its elements, `append` adds at the end, `insert(0, x)` adds at the front,
`ensure` only reserves room, and `at(i)` and `back()` are defined only for an
element that exists. -/
structure RegEx (P : Type) where
  mErrorOffset : Int
  mError : Option RegEx.CString
  re : Option P
  mFree : Bool
  ovector : RegEx.Ovector
  subject : Option RegEx.CString
  mSubStrings : List RegEx.RegExSub
deriving DecidableEq

namespace RegEx

/-- The result of running a member function: a value, or undefined behaviour
of the C++ (`fault`), or the loop did not finish within the fuel given. -/
inductive Res (α : Type) where
  | ok (a : α)
  | fault
  | outOfFuel
deriving DecidableEq

variable {P : Type}

/-- `RegEx::RegEx()`.  The constructor does not initialise `ovector`; `ov` is
what the array holds. -/
def init (ov : Ovector) : RegEx P :=
  { mErrorOffset := 0, mError := none, re := none, mFree := true,
    ovector := ov, subject := none, mSubStrings := [] }

/-- `RegEx::Clear()`. -/
def Clear (m : RegEx P) : RegEx P :=
  { m with mErrorOffset := 0, mError := none, re := none, mFree := true,
           subject := none, mSubStrings := [] }

/-- `RegEx::ClearMatch()`. -/
def ClearMatch (m : RegEx P) : RegEx P :=
  { m with mErrorOffset := 0, mError := none, subject := none, mSubStrings := [] }

/-- `RegEx::isFree(bool set, bool val)`: the returned `bool` and the object
after the call. -/
def isFree (m : RegEx P) (set : Bool) (val : Bool) : Bool × RegEx P :=
  if set then (true, { m with mFree := val }) else (m.mFree, m)

/-- `RegEx::Count()`. -/
def Count (m : RegEx P) : Int := (m.mSubStrings.length : Int)

/-- One step of the `switch (*flags)` of `Compile`. -/
def flagBit (iFlags : Nat) (c : Char) : Nat :=
  if c = 'i' then iFlags ||| PCRE_CASELESS
  else if c = 'm' then iFlags ||| PCRE_MULTILINE
  else if c = 's' then iFlags ||| PCRE_DOTALL
  else if c = 'x' then iFlags ||| PCRE_EXTENDED
  else iFlags

/-- The loop `for ( ; *flags != 0; flags++)` of `Compile`. -/
def flagLoop : CString → Nat → Nat
  | [], iFlags => iFlags
  | c :: cs, iFlags => if c = NUL then iFlags else flagLoop cs (flagBit iFlags c)

/-- The common tail of both `Compile` overloads, from the call of
`pcre_compile` on. -/
def compileTail (E : Engine P) (m : RegEx P) (pattern : CString) (iFlags : Int) :
    Int × RegEx P :=
  match E.pcre_compile pattern iFlags m.mError m.mErrorOffset with
  | (none, err, off) => (0, { m with re := none, mError := err, mErrorOffset := off })
  | (some code, err, off) =>
    (1, { m with re := some code, mError := err, mErrorOffset := off, mFree := false })

/-- `int iFlags = 0; if (flags != NULL) { for ... }` of `Compile`; `flags = none`
is `NULL`. -/
def translateFlags (flags : Option CString) : Nat :=
  match flags with
  | none => 0
  | some f => flagLoop f 0

/-- `RegEx::Compile(const char *pattern, const char *flags)`; `flags = none` is
`NULL`. -/
def Compile (E : Engine P) (m : RegEx P) (pattern : CString) (flags : Option CString) :
    Int × RegEx P :=
  let m1 := if !m.mFree then Clear m else m
  let iFlags : Nat := translateFlags flags
  compileTail E m1 pattern (iFlags : Int)

/-- `RegEx::Compile(const char *pattern, int iFlags)`. -/
def CompileInt (E : Engine P) (m : RegEx P) (pattern : CString) (iFlags : Int) :
    Int × RegEx P :=
  let m1 := if !m.mFree then Clear m else m
  compileTail E m1 pattern iFlags

/-- The loop `for (; s < rc; ++s) { res.start = ovector[2 * s];
res.end = ovector[2 * s + 1]; mSubStrings.append(res); }` with `n` iterations
left; `none` when it reads outside `ovector`. -/
def appendSubs (ov : Ovector) : Nat → Nat → List RegExSub → Option (List RegExSub)
  | _, 0, subs => some subs
  | s, n + 1, subs =>
    match ov.read (2 * s), ov.read (2 * s + 1) with
    | some a, some b => appendSubs ov (s + 1) n (subs ++ [⟨a, b⟩])
    | _, _ => none

/-- `RegEx::Match(const char *str)`: the returned `int` and the object after
the call. -/
def Match (E : Engine P) (m : RegEx P) (str : CString) : Res (Int × RegEx P) :=
  match m.re with
  | none => .ok (-1, m)
  | some code =>
    if m.mFree then .ok (-1, m)
    else
      let m1 := ClearMatch m
      let subject := strcpy str
      let m2 := { m1 with subject := some subject }
      let r := E.pcre_exec code subject (strlen subject : Int) 0 0 m2.ovector OVECSIZE
      let rc := r.1
      let m3 := { m2 with ovector := r.2 }
      if rc < 0 then
        if rc = PCRE_ERROR_NOMATCH then .ok (0, m3)
        else .ok (-1, { m3 with mErrorOffset := rc })
      else
        match appendSubs m3.ovector 0 rc.toNat m3.mSubStrings with
        | none => .fault
        | some subs => .ok (1, { m3 with mSubStrings := subs })

/-- The part of `MatchAll` after the `while` loop.  `mSubStrings.at(0)` and
`mSubStrings.back()` require a non-empty vector. -/
def matchAllFinish (m : RegEx P) (rc : Int) : Res (Int × RegEx P) :=
  if rc = 0 then .ok (0, m)
  else
    match m.mSubStrings.head?, m.mSubStrings.getLast? with
    | some first, some last =>
      .ok (1, { m with mSubStrings := ⟨first.start, last.end_⟩ :: m.mSubStrings })
    | _, _ => .fault

/-- The `while ((rr = pcre_exec(...)))` loop of `MatchAll` and what follows it,
with the locals `rc` and `offset`; one unit of fuel per call of `pcre_exec`. -/
def matchAllLoop (E : Engine P) (code : P) :
    Nat → RegEx P → Int → Int → Res (Int × RegEx P)
  | 0, _, _, _ => .outOfFuel
  | fuel + 1, m, rc, offset =>
    match m.subject with
    | none => .fault
    | some subject =>
      let r := E.pcre_exec code subject (strlen subject : Int) offset 0 m.ovector OVECSIZE
      let rr := r.1
      let m1 := { m with ovector := r.2 }
      if rr = 0 then matchAllFinish m1 rc
      else if rr < 0 then
        if rr = PCRE_ERROR_NOMATCH then matchAllFinish m1 rc
        else
          let m2 := { m1 with mErrorOffset := rr }
          let m3 := if rc ≠ 0 then ClearMatch m2 else m2
          .ok (-1, m3)
      else
        let rc1 := rc + rr
        match appendSubs m1.ovector 1 (rr - 1).toNat m1.mSubStrings with
        | none => .fault
        | some subs =>
          match m1.ovector.read 1 with
          | none => .fault
          | some off => matchAllLoop E code fuel { m1 with mSubStrings := subs } rc1 off

/-- `RegEx::MatchAll(const char *str)`, the loop running at most `fuel`
times. -/
def MatchAll (E : Engine P) (fuel : Nat) (m : RegEx P) (str : CString) :
    Res (Int × RegEx P) :=
  match m.re with
  | none => .ok (-1, m)
  | some code =>
    if m.mFree then .ok (-1, m)
    else
      let m1 := ClearMatch m
      let m2 := { m1 with subject := some (strcpy str) }
      matchAllLoop E code fuel m2 0 0

/-- The value returned by `GetSubstring` (`isNull` when it is `NULL`, else it
is `buffer`) and the caller's array `buffer` after the call. -/
structure SubstrResult where
  isNull : Bool
  buffer : List Char
deriving DecidableEq, Repr

/-- The loop `for (i = 0; i < substr_l; i++) { if (i >= max) break;
buffer[i] = substr_a[i]; }` with `n` iterations left, where
`substr_a = subject + start`; `none` when it reads outside `subject` or writes
outside `buffer`. -/
def copyChars (subject : CString) (start : Int) :
    Nat → Nat → List Char → Option (List Char)
  | _, 0, buffer => some buffer
  | i, n + 1, buffer =>
    if start + i < 0 then none
    else
      match subject[(start + i).toNat]? with
      | none => none
      | some c =>
        if i < buffer.length then copyChars subject start (i + 1) n (buffer.set i c)
        else none

/-- `RegEx::GetSubstring(int s, char buffer[], int max)`. -/
def GetSubstring (m : RegEx P) (s : Int) (buffer : List Char) (max : Int) :
    Res SubstrResult :=
  if size_t_cast s ≥ m.mSubStrings.length ∨ s < 0 then .ok ⟨true, buffer⟩
  else
    match m.mSubStrings[s.toNat]? with
    | none => .fault
    | some sub =>
      let substr_l := sub.end_ - sub.start
      let n := (min substr_l max).toNat
      match copyChars (m.subject.getD []) sub.start 0 n buffer with
      | none => .fault
      | some buf =>
        if n < buf.length then .ok ⟨false, buf.set n NUL⟩ else .fault

end RegEx

/-! ## A small engine for worked examples

The behaviour of PCRE on four patterns, enough to run the member functions on
concrete subjects. -/

namespace RegEx

/-- The array `ov` after the values `xs` have been stored from index 0 on. -/
def Ovector.store (ov : Ovector) (xs : List Int) : Ovector :=
  ⟨(xs ++ ov.val.drop xs.length).take OVECSIZE, by
    have h := ov.property
    simp only [List.length_take, List.length_append, List.length_drop, h]
    omega⟩

/-- An array of thirty zeros. -/
def zeroOvector : Ovector := ⟨List.replicate 30 0, rfl⟩

/-- The compiled patterns of the example engine. -/
inductive DemoPattern where
  /-- `(\w+)` -/
  | word
  /-- `foo` -/
  | foo
  /-- `(a*)` -/
  | aStar
  /-- `((a+)+b)` -/
  | nested
deriving DecidableEq, Repr

/-- `\w`. -/
def isWordChar (c : Char) : Bool := c.isAlphanum || c = '_'

/-- The position of the first occurrence of `pat` in `cs`, counted from
`pos`, the position of the head of `cs`. -/
def findFrom (pat : List Char) : List Char → Nat → Option Nat
  | [], pos => if pat = [] then some pos else none
  | c :: cs, pos => if pat.isPrefixOf (c :: cs) then some pos else findFrom pat cs (pos + 1)

/-- `PCRE_ERROR_MATCHLIMIT`. -/
def PCRE_ERROR_MATCHLIMIT : Int := -8

/-- `PCRE_ERROR_BADOFFSET`. -/
def PCRE_ERROR_BADOFFSET : Int := -24

/-- The search of `((a+)+b)` in `cs`, whose head is at position `pos`.  A run
of `a` followed by `b` matches.  A run of `a` not followed by `b` is
backtracked over in every way of splitting it: a run of 24 chars or more is
taken to exceed the match limit, below that the search goes on at the next
position. -/
def nestedSearch : List Char → Nat → Ovector → Int × Ovector
  | [], _, ov => (PCRE_ERROR_NOMATCH, ov)
  | c :: cs, pos, ov =>
    if c = 'a' then
      let run := (c :: cs).takeWhile (fun d => d = 'a')
      if ((c :: cs).drop run.length).head? = some 'b' then
        let s : Int := (pos : Int)
        let e : Int := ((pos + run.length + 1 : Nat) : Int)
        (3, ov.store [s, e, s, e, e - 2, e - 1])
      else if 24 ≤ run.length then (PCRE_ERROR_MATCHLIMIT, ov)
      else nestedSearch cs (pos + 1) ov
    else nestedSearch cs (pos + 1) ov

/-- What `pcre_exec` does for the example patterns on the first `length`
chars of `subject`, searching from `startoffset`. -/
def demoExec (code : DemoPattern) (subject : CString) (length : Int) (startoffset : Int)
    (_options : Int) (ov : Ovector) (_ovecsize : Nat) : Int × Ovector :=
  if startoffset < 0 ∨ length < startoffset then (PCRE_ERROR_BADOFFSET, ov)
  else
    let off := startoffset.toNat
    let rest := (subject.take length.toNat).drop off
    match code with
    | .word =>
      let skipped := rest.takeWhile (fun c => !isWordChar c)
      let run := (rest.drop skipped.length).takeWhile isWordChar
      if run = [] then (PCRE_ERROR_NOMATCH, ov)
      else
        let s : Int := ((off + skipped.length : Nat) : Int)
        let e : Int := ((off + skipped.length + run.length : Nat) : Int)
        (2, ov.store [s, e, s, e])
    | .foo =>
      match findFrom ['f', 'o', 'o'] rest off with
      | none => (PCRE_ERROR_NOMATCH, ov)
      | some p => (1, ov.store [(p : Int), ((p + 3 : Nat) : Int)])
    | .aStar =>
      let run := rest.takeWhile (fun c => c = 'a')
      let s : Int := (off : Int)
      let e : Int := ((off + run.length : Nat) : Int)
      (2, ov.store [s, e, s, e])
    | .nested => nestedSearch rest off ov

/-- What `pcre_compile` does for the example patterns; `(` is rejected with
the message and offset PCRE gives, every other pattern is rejected at offset
0. -/
def demoCompile (pattern : CString) (_options : Int) (_errptr : Option CString)
    (_erroffset : Int) : Option DemoPattern × Option CString × Int :=
  let p := strcpy pattern
  if p = strcpy "(\\w+)".toList then (some .word, none, 0)
  else if p = strcpy "foo".toList then (some .foo, none, 0)
  else if p = strcpy "(a*)".toList then (some .aStar, none, 0)
  else if p = strcpy "((a+)+b)".toList then (some .nested, none, 0)
  else if p = strcpy "(".toList then (none, some "missing )".toList, 1)
  else (none, some "unrecognized pattern".toList, 0)

/-- The example engine. -/
def demoEngine : Engine DemoPattern :=
  { pcre_compile := demoCompile, pcre_exec := demoExec }

/-- A `RegEx` object holding the compiled pattern `code` and no match. -/
def compiled (code : DemoPattern) : RegEx DemoPattern :=
  { (init zeroOvector : RegEx DemoPattern) with re := some code, mFree := false }

/-- A `RegEx` object holding the compiled pattern `code` together with the
results of an earlier match: a subject copy, three spans and an error
offset. -/
def withOldMatch (code : DemoPattern) : RegEx DemoPattern :=
  { compiled code with
      mErrorOffset := -8
      subject := some (strcpy "old text".toList)
      mSubStrings := [⟨0, 8⟩, ⟨0, 3⟩, ⟨4, 8⟩] }

/-- The object after `Match` of `(\w+)` on `"  ab cd"`. -/
def afterWordMatch : RegEx DemoPattern :=
  { compiled .word with
      subject := some (strcpy "  ab cd".toList)
      ovector := zeroOvector.store [2, 4, 2, 4]
      mSubStrings := [⟨2, 4⟩, ⟨2, 4⟩] }

/-- The object after `MatchAll` of `(\w+)` on `"ab cd"`. -/
def afterWordMatchAll : RegEx DemoPattern :=
  { compiled .word with
      subject := some (strcpy "ab cd".toList)
      ovector := zeroOvector.store [3, 5, 3, 5]
      mSubStrings := [⟨0, 5⟩, ⟨0, 2⟩, ⟨3, 5⟩] }

/-- The two successful answers of the engine for `(\w+)` on `"ab cd"`. -/
def wordIterations : List (Int × Ovector) :=
  [(2, zeroOvector.store [0, 2, 0, 2]), (2, zeroOvector.store [3, 5, 3, 5])]

/-- A subject on which `((a+)+b)` matches `"ab"` at offset 0 and then, searching
from offset 2, meets a run of 24 `a` followed by `c`. -/
def limitSubject : CString := "ab aaaaaaaaaaaaaaaaaaaaaaaacb".toList

/-! ## What the engine reports -/

variable {P : Type}

/-- The spans `(ovector[2s], ovector[2s+1]), ..., ` of `n` consecutive pairs of
the result array, from pair `s` on. -/
def spansFrom (ov : Ovector) : Nat → Nat → List RegExSub
  | _, 0 => []
  | s, n + 1 => ⟨ov.val.getD (2 * s) 0, ov.val.getD (2 * s + 1) 0⟩ :: spansFrom ov (s + 1) n

/-- The answers of the engine to the successive calls that `MatchAll` makes on
`subject`: the call at `offset` with the array `ov` succeeds with `rr >= 1`
spans held in the array (`2 * rr <= 30`), the next call starts at the end of
that whole match, and so on for each entry of the list; the call after the
last entry reports no match. -/
def Iterations (E : Engine P) (code : P) (subject : CString) :
    Int → Ovector → List (Int × Ovector) → Prop
  | offset, ov, [] =>
    (E.pcre_exec code subject (strlen subject : Int) offset 0 ov OVECSIZE).1
      = PCRE_ERROR_NOMATCH
  | offset, ov, it :: rest =>
    E.pcre_exec code subject (strlen subject : Int) offset 0 ov OVECSIZE = it
      ∧ 1 ≤ it.1 ∧ 2 * it.1 ≤ (OVECSIZE : Int)
      ∧ Iterations E code subject (it.2.val.getD 1 0) it.2 rest

instance Iterations.instDecidable (E : Engine P) (code : P) (subject : CString) :
    ∀ (its : List (Int × Ovector)) (offset : Int) (ov : Ovector),
      Decidable (Iterations E code subject offset ov its)
  | [], offset, ov =>
    inferInstanceAs (Decidable
      ((E.pcre_exec code subject (strlen subject : Int) offset 0 ov OVECSIZE).1
        = PCRE_ERROR_NOMATCH))
  | it :: rest, offset, ov =>
    have := Iterations.instDecidable E code subject rest (it.2.val.getD 1 0) it.2
    inferInstanceAs (Decidable
      (E.pcre_exec code subject (strlen subject : Int) offset 0 ov OVECSIZE = it
        ∧ 1 ≤ it.1 ∧ 2 * it.1 ≤ (OVECSIZE : Int)
        ∧ Iterations E code subject (it.2.val.getD 1 0) it.2 rest))

/-- The capture-group spans (pairs `1 .. rr-1`) of each iteration, in order. -/
def groupSpans : List (Int × Ovector) → List RegExSub
  | [] => []
  | it :: rest => spansFrom it.2 1 (it.1 - 1).toNat ++ groupSpans rest

/-- The sum of the span counts `rr` of the iterations. -/
def totalSpans : List (Int × Ovector) → Int
  | [] => 0
  | it :: rest => it.1 + totalSpans rest

end RegEx

/-! ## Runs of the `MatchAll` loop and assumptions on the engine -/

namespace RegEx

variable {P : Type}

/-- The capture-group spans (pairs `1 .. rr-1`) that one iteration of
`MatchAll` appends, for the answer `it = (rr, ovector)` of the engine. -/
def iterationGroups (it : Int × Ovector) : List RegExSub :=
  spansFrom it.2 1 (it.1 - 1).toNat

/-- The answers of the engine along a whole run of the loop of `MatchAll` on
`subject`, however the loop ends: each entry is the answer of a call that
succeeded with `rr >= 1`, the next call starts at `ovector[1]`, and the call
after the last entry returns 0 or "no match". -/
def LoopRun (E : Engine P) (code : P) (subject : CString) :
    Int → Ovector → List (Int × Ovector) → Prop
  | offset, ov, [] =>
    (E.pcre_exec code subject (strlen subject : Int) offset 0 ov OVECSIZE).1 = 0
      ∨ (E.pcre_exec code subject (strlen subject : Int) offset 0 ov OVECSIZE).1
          = PCRE_ERROR_NOMATCH
  | offset, ov, it :: rest =>
    E.pcre_exec code subject (strlen subject : Int) offset 0 ov OVECSIZE = it
      ∧ 1 ≤ it.1
      ∧ LoopRun E code subject (it.2.val.getD 1 0) it.2 rest

/-- The answer `r` to a call at `startoffset` reports a whole-match span
`(start, end)`, `start <= end`, that begins at or after `startoffset`, and
capture-group spans (pairs `1 .. rc-1`) that lie inside it. -/
def InsideWhole (startoffset : Int) (r : Int × Ovector) : Prop :=
  startoffset ≤ r.2.val.getD 0 0 ∧ r.2.val.getD 0 0 ≤ r.2.val.getD 1 0
    ∧ ∀ k : Nat, 1 ≤ k → (k : Int) < r.1 →
        r.2.val.getD 0 0 ≤ r.2.val.getD (2 * k) 0
          ∧ r.2.val.getD (2 * k) 0 ≤ r.2.val.getD (2 * k + 1) 0
          ∧ r.2.val.getD (2 * k + 1) 0 ≤ r.2.val.getD 1 0

/-- The engine, for the compiled pattern `code`, only reports matches whose
whole-match span begins at or after the requested start offset and whose
capture-group spans lie inside that span. -/
def ReportsInside (E : Engine P) (code : P) : Prop :=
  ∀ (subject : CString) (length startoffset options : Int) (ov : Ovector) (ovecsize : Nat),
    1 ≤ (E.pcre_exec code subject length startoffset options ov ovecsize).1 →
    InsideWhole startoffset (E.pcre_exec code subject length startoffset options ov ovecsize)

end RegEx

/-! ## The flag translation in the words of the specification -/

namespace RegEx

/-- The chars of a flag string: those before its terminator; an absent flag
string has none. -/
def flagChars (flags : Option CString) : List Char :=
  match flags with
  | none => []
  | some f => f.takeWhile notNUL

/-- The option bits of a list of flag chars, in the words of the
specification: the bitwise OR of `CASELESS` if `i` occurs, `MULTILINE` if `m`
occurs, `DOTALL` if `s` occurs and `EXTENDED` if `x` occurs. -/
def specBitsOfChars (cs : List Char) : Nat :=
  (if 'i' ∈ cs then PCRE_CASELESS else 0) ||| (if 'm' ∈ cs then PCRE_MULTILINE else 0)
    ||| (if 's' ∈ cs then PCRE_DOTALL else 0) ||| (if 'x' ∈ cs then PCRE_EXTENDED else 0)

/-- The option bits `bits(f)` of a flag string, or of an absent flag string
treated as empty. -/
def specFlagBits (flags : Option CString) : Nat := specBitsOfChars (flagChars flags)

end RegEx

/-! ## Observing the capacity passed to the engine -/

namespace RegEx

variable {P : Type}

/-- The engine `E` made to see `n` as `ovecsize`, whatever the caller
passes. -/
def atCapacity (E : Engine P) (n : Nat) : Engine P :=
  { E with
      pcre_exec := fun code subject length startoffset options ov _ =>
        E.pcre_exec code subject length startoffset options ov n }

/-- An engine that compiles every pattern and whose `pcre_exec` fails with the
error code `-(100 + ovecsize)`: the code shows which capacity it was given. -/
def probeEngine : Engine Unit :=
  { pcre_compile := fun _ _ _ _ => (some (), none, 0)
    pcre_exec := fun _ _ _ _ _ ov ovecsize => (-(100 + (ovecsize : Int)), ov) }

/-- A compiled object, holding no match, for the engines whose compiled
patterns are of type `Unit`. -/
def probeCompiled : RegEx Unit :=
  { (init zeroOvector : RegEx Unit) with re := some (), mFree := false }

end RegEx

/-! ## Sequences of public operations -/

namespace RegEx

variable {P : Type}

/-- A call of a public member function of `RegEx`, with its arguments
(`matchAll` also carries the fuel for its loop). -/
inductive Op where
  | compile (pattern : CString) (flags : Option CString)
  | compileInt (pattern : CString) (iFlags : Int)
  | matchOnce (str : CString)
  | matchAll (fuel : Nat) (str : CString)
  | clearMatch
  | clear
  | isFree (set : Bool) (val : Bool)
deriving DecidableEq

/-- The call `isFree(true, val)`, which stores `val` in `mFree`. -/
def Op.isSetter : Op → Bool
  | .isFree true _ => true
  | _ => false

/-- The object after the call `op` on `m`; `none` when the call does not
return (undefined behaviour, or a loop that does not end within its fuel). -/
def applyOp (E : Engine P) (m : RegEx P) : Op → Option (RegEx P)
  | .compile pattern flags => some (Compile E m pattern flags).2
  | .compileInt pattern iFlags => some (CompileInt E m pattern iFlags).2
  | .matchOnce str =>
    match Match E m str with
    | .ok r => some r.2
    | _ => none
  | .matchAll fuel str =>
    match MatchAll E fuel m str with
    | .ok r => some r.2
    | _ => none
  | .clearMatch => some (ClearMatch m)
  | .clear => some (Clear m)
  | .isFree set val => some (isFree m set val).2

/-- The object after the calls `ops`, made in order on `m`. -/
def runOps (E : Engine P) : List Op → RegEx P → Option (RegEx P)
  | [], m => some m
  | op :: ops, m =>
    match applyOp E m op with
    | none => none
    | some m1 => runOps E ops m1

end RegEx

/-! ## Spans inside the subject -/

namespace RegEx

variable {P : Type}

/-- The span `(start, end)` satisfies `0 <= start <= end <= len`. -/
def RegExSub.validFor (sub : RegExSub) (len : Int) : Prop :=
  0 ≤ sub.start ∧ sub.start ≤ sub.end_ ∧ sub.end_ ≤ len

instance (sub : RegExSub) (len : Int) : Decidable (sub.validFor len) := by
  unfold RegExSub.validFor; infer_instance

/-- Every span that the engine reports for the compiled pattern `code` (pairs
`0 .. rc-1` of the result array) satisfies `0 <= start <= end <= length`,
`length` being the subject length passed to the call. -/
def ReportsValid (E : Engine P) (code : P) : Prop :=
  ∀ (subject : CString) (length startoffset options : Int) (ov : Ovector) (ovecsize : Nat)
    (k : Nat),
    (k : Int) < (E.pcre_exec code subject length startoffset options ov ovecsize).1 →
    RegExSub.validFor
      ⟨(E.pcre_exec code subject length startoffset options ov ovecsize).2.val.getD (2 * k) 0,
        (E.pcre_exec code subject length startoffset options ov ovecsize).2.val.getD
          (2 * k + 1) 0⟩
      length

/-- The search of `(?=..(c))(a)` in `cs`, whose head is at position `pos`: the
first position that holds `a` with `c` two chars further on. -/
def lookaheadSearch : List Char → Nat → Option Nat
  | [], _ => none
  | c :: cs, pos =>
    if c = 'a' ∧ (cs.drop 1).head? = some 'c' then some pos
    else lookaheadSearch cs (pos + 1)

/-- What `pcre_exec` does for the pattern `(?=..(c))(a)`: at the position `p`
found, the whole match is `(p, p+1)`, group 1, captured inside the lookahead,
is `(p+2, p+3)`, and group 2 is `(p, p+1)`. -/
def lookaheadExec (_code : Unit) (subject : CString) (length : Int) (startoffset : Int)
    (_options : Int) (ov : Ovector) (_ovecsize : Nat) : Int × Ovector :=
  if startoffset < 0 ∨ length < startoffset then (PCRE_ERROR_BADOFFSET, ov)
  else
    match lookaheadSearch ((subject.take length.toNat).drop startoffset.toNat)
        startoffset.toNat with
    | none => (PCRE_ERROR_NOMATCH, ov)
    | some p =>
      (3, ov.store [(p : Int), ((p + 1 : Nat) : Int), ((p + 2 : Nat) : Int),
        ((p + 3 : Nat) : Int), (p : Int), ((p + 1 : Nat) : Int)])

/-- An engine for the pattern `(?=..(c))(a)`. -/
def lookaheadEngine : Engine Unit :=
  { pcre_compile := fun _ _ _ _ => (some (), none, 0)
    pcre_exec := lookaheadExec }

/-- The object after `MatchAll` of `(?=..(c))(a)` on `"abc"`. -/
def afterLookaheadMatchAll : RegEx Unit :=
  { probeCompiled with
      subject := some (strcpy "abc".toList)
      ovector := zeroOvector.store [0, 1, 2, 3, 0, 1]
      mSubStrings := [⟨2, 1⟩, ⟨2, 3⟩, ⟨0, 1⟩] }

end RegEx

/-! ## An engine that reports the count 0 -/

namespace RegEx

/-- What `pcre_exec` does, with the capacity 30 that `Match` and `MatchAll`
pass, for the pattern `(a)(a)(a)(a)(a)(a)(a)(a)(a)(a)` of ten groups: a match
has eleven spans, the array has room for ten (two thirds of its 30 values), so
the whole match and the groups 1 to 9 are stored and the result is 0. -/
def tenGroupsExec (_code : Unit) (subject : CString) (length : Int) (startoffset : Int)
    (_options : Int) (ov : Ovector) (_ovecsize : Nat) : Int × Ovector :=
  if startoffset < 0 ∨ length < startoffset then (PCRE_ERROR_BADOFFSET, ov)
  else
    match findFrom (List.replicate 10 'a')
        ((subject.take length.toNat).drop startoffset.toNat) startoffset.toNat with
    | none => (PCRE_ERROR_NOMATCH, ov)
    | some q =>
      let p : Int := (q : Int)
      (0, ov.store [p, p + 10, p, p + 1, p + 1, p + 2, p + 2, p + 3, p + 3, p + 4,
        p + 4, p + 5, p + 5, p + 6, p + 6, p + 7, p + 7, p + 8, p + 8, p + 9])

/-- An engine for the pattern of ten groups. -/
def tenGroupsEngine : Engine Unit :=
  { pcre_compile := fun _ _ _ _ => (some (), none, 0)
    pcre_exec := tenGroupsExec }

/-- The object after `Match` of the pattern of ten groups on ten `a`. -/
def afterTenGroupsMatch : RegEx Unit :=
  { probeCompiled with
      subject := some (strcpy "aaaaaaaaaa".toList)
      ovector := zeroOvector.store [0, 10, 0, 1, 1, 2, 2, 3, 3, 4, 4, 5, 5, 6, 6, 7, 7, 8,
        8, 9] }

end RegEx

/-! ## Auxiliary facts -/

namespace RegEx

variable {P : Type}

theorem strlen_le_length (s : CString) : strlen s ≤ s.length := by
  unfold strlen
  exact (List.takeWhile_sublist _).length_le

theorem notNUL_NUL : notNUL NUL = false := by simp [notNUL]

theorem notNUL_eq_true {c : Char} (h : c ≠ NUL) : notNUL c = true := by simp [notNUL, h]

theorem strlen_strcpy (str : CString) : strlen (strcpy str) = strlen str := by
  unfold strlen strcpy
  induction str with
  | nil => simp [List.takeWhile, notNUL_NUL]
  | cons c cs ih =>
    by_cases h : c = NUL
    · subst h; simp [List.takeWhile, notNUL_NUL]
    · simp only [List.takeWhile, notNUL_eq_true h, List.cons_append, List.length_cons]
      rw [ih]

theorem take_strcpy (str : CString) (n : Nat) (h : n ≤ strlen str) :
    (strcpy str).take n = str.take n := by
  unfold strlen at h
  unfold strcpy
  induction str generalizing n with
  | nil => simp at h; subst h; simp
  | cons c cs ih =>
    cases n with
    | zero => simp
    | succ k =>
      by_cases hc : c = NUL
      · subst hc; simp [List.takeWhile, notNUL_NUL] at h
      · simp only [List.takeWhile, notNUL_eq_true hc, List.length_cons,
          Nat.add_le_add_iff_right] at h
        simp only [List.takeWhile, notNUL_eq_true hc, List.cons_append, List.take_succ_cons]
        rw [ih k h]

theorem not_NUL_of_mem_take (s : CString) (n : Nat) (h : n ≤ strlen s) (c : Char)
    (hc : c ∈ s.take n) : c ≠ NUL := by
  unfold strlen at h
  induction s generalizing n with
  | nil => simp at hc
  | cons d ds ih =>
    cases n with
    | zero => simp at hc
    | succ k =>
      by_cases hd : d = NUL
      · subst hd; simp [List.takeWhile, notNUL_NUL] at h
      · simp only [List.takeWhile, notNUL_eq_true hd, List.length_cons,
          Nat.add_le_add_iff_right] at h
        rw [List.take_succ_cons, List.mem_cons] at hc
        rcases hc with rfl | hc
        · exact hd
        · exact ih k h hc

theorem read_eq_getD (ov : Ovector) (i : Nat) (h : i < OVECSIZE) :
    ov.read i = some (ov.val.getD i 0) := by
  unfold Ovector.read
  have hl : i < ov.val.length := by rw [ov.property]; exact h
  simp [List.getD, List.getElem?_eq_getElem hl]

theorem appendSubs_eq (ov : Ovector) (s n : Nat) (subs : List RegExSub)
    (h : 2 * (s + n) ≤ OVECSIZE) :
    appendSubs ov s n subs = some (subs ++ spansFrom ov s n) := by
  induction n generalizing s subs with
  | zero => simp [appendSubs, spansFrom]
  | succ k ih =>
    have h1 : 2 * s < OVECSIZE := by omega
    have h2 : 2 * s + 1 < OVECSIZE := by omega
    simp only [appendSubs, read_eq_getD ov _ h1, read_eq_getD ov _ h2, spansFrom]
    rw [ih (s + 1) _ (by omega)]
    simp

theorem length_spansFrom (ov : Ovector) (s n : Nat) : (spansFrom ov s n).length = n := by
  induction n generalizing s with
  | zero => rfl
  | succ k ih => simp [spansFrom, ih]

end RegEx

/-! ## `Match` -/

namespace RegEx

variable {P : Type}

/-- C1: on a compiled object, whatever it held before, when the engine's call
at start offset 0 returns `rc >= 1` and the result array `ov` (whose pairs
`0 .. rc-1` are the reported spans, `2 * rc <= 30`), `Match` returns 1 and
`mSubStrings` is exactly those `rc` spans in order: `Count()` is `rc`, index 0
is the whole match `(ov[0], ov[1])`, nothing of an earlier match is left, and
`subject` is the copy of the new string. -/
theorem Match_stores_all_spans (E : Engine P) (m : RegEx P) (code : P) (str : CString)
    (rc : Int) (ov : Ovector)
    (hre : m.re = some code) (hfree : m.mFree = false)
    (hexec : E.pcre_exec code (strcpy str) (strlen (strcpy str) : Int) 0 0 m.ovector OVECSIZE
      = (rc, ov))
    (h1 : 1 ≤ rc) (hcap : 2 * rc ≤ (OVECSIZE : Int)) :
    ∃ m1 : RegEx P, Match E m str = .ok (1, m1)
      ∧ m1.mSubStrings = spansFrom ov 0 rc.toNat
      ∧ Count m1 = rc
      ∧ m1.mSubStrings.head? = some ⟨ov.val.getD 0 0, ov.val.getD 1 0⟩
      ∧ m1.subject = some (strcpy str) := by
  have hnat : 2 * (0 + rc.toNat) ≤ OVECSIZE := by
    have : (rc.toNat : Int) = rc := Int.toNat_of_nonneg (by omega)
    omega
  have hneg : ¬ rc < 0 := by omega
  obtain ⟨k, hk⟩ : ∃ k, rc.toNat = k + 1 := ⟨rc.toNat - 1, by omega⟩
  refine ⟨{ m with mErrorOffset := 0, mError := none, subject := some (strcpy str),
                   ovector := ov, mSubStrings := spansFrom ov 0 rc.toNat }, ?_, rfl, ?_, ?_, rfl⟩
  · simp only [Match, hre, hfree, ClearMatch, hexec, hneg, appendSubs_eq ov 0 rc.toNat [] hnat]
    simp
  · simp only [Count, length_spansFrom]
    exact Int.toNat_of_nonneg (by omega)
  · simp only [hk, spansFrom]
    simp

/-- C1 at a concrete input: `(\w+)` on `"ab cd"`, on an object that still holds
three spans of an earlier match. -/
theorem Match_stores_all_spans_witness :
    (withOldMatch .word).re = some .word ∧ (withOldMatch .word).mFree = false
      ∧ demoEngine.pcre_exec .word (strcpy "ab cd".toList)
          (strlen (strcpy "ab cd".toList) : Int) 0 0 (withOldMatch .word).ovector OVECSIZE
          = (2, zeroOvector.store [0, 2, 0, 2])
      ∧ ∃ m1 : RegEx DemoPattern,
          Match demoEngine (withOldMatch .word) "ab cd".toList = .ok (1, m1)
          ∧ m1.mSubStrings = [⟨0, 2⟩, ⟨0, 2⟩]
          ∧ Count m1 = 2
          ∧ m1.mSubStrings.head? = some ⟨0, 2⟩
          ∧ m1.subject = some (strcpy "ab cd".toList) :=
  ⟨rfl, rfl, by decide,
    Match_stores_all_spans demoEngine (withOldMatch .word) .word "ab cd".toList 2
      (zeroOvector.store [0, 2, 0, 2]) rfl rfl (by decide) (by decide) (by decide)⟩

end RegEx

/-! ## `GetSubstring` -/

namespace RegEx

variable {P : Type}

theorem take_succ_set (B : List Char) (i : Nat) (c : Char) (hi : i < B.length) :
    (B.set i c).take (i + 1) = B.take i ++ [c] := by
  rw [List.take_succ, List.set_take, List.set_eq_of_length_le (by simp)]
  simp [hi]

theorem copyChars_eq (subject : CString) (start : Int) (i n : Nat) (buffer : List Char)
    (h0 : 0 ≤ start) (hs : start.toNat + i + n ≤ subject.length)
    (hb : i + n ≤ buffer.length) :
    copyChars subject start i n buffer
      = some (buffer.take i ++ (subject.drop (start.toNat + i)).take n
          ++ buffer.drop (i + n)) := by
  induction n generalizing i buffer with
  | zero => simp [copyChars]
  | succ k ih =>
    have hj : start.toNat + i < subject.length := by omega
    have hi : i < buffer.length := by omega
    have hnn : ¬ (start + (i : Int) < 0) := by omega
    have htn : (start + (i : Int)).toNat = start.toNat + i := by omega
    simp only [copyChars, hnn, if_false, htn, List.getElem?_eq_getElem hj, hi, if_true]
    rw [ih (i + 1) (buffer.set i subject[start.toNat + i]) (by omega)
      (by rw [List.length_set]; omega)]
    rw [take_succ_set _ _ _ hi, List.drop_set_of_lt _ _ (by omega),
      List.drop_eq_getElem_cons hj, List.take_succ_cons]
    have e1 : i + 1 + k = i + (k + 1) := by omega
    have e2 : start.toNat + (i + 1) = start.toNat + i + 1 := by omega
    rw [e1, e2]
    simp

theorem size_t_cast_of_nonneg (s : Int) (hs : isInt s) (h0 : 0 ≤ s) :
    size_t_cast s = s.toNat := by
  unfold size_t_cast
  unfold isInt at hs
  rw [Int.emod_eq_of_lt h0 (by omega)]

/-- The range test of `GetSubstring` on an `int`. -/
theorem range_test_iff (m : RegEx P) (s : Int) (hs : isInt s) :
    (size_t_cast s ≥ m.mSubStrings.length ∨ s < 0) ↔ (s < 0 ∨ Count m ≤ s) := by
  unfold Count
  by_cases h0 : 0 ≤ s
  · rw [size_t_cast_of_nonneg s hs h0]
    omega
  · constructor
    · intro _; left; omega
    · intro _; right; omega

/-- `GetSubstring` on an index outside `0 .. Count()-1` returns `NULL` and
leaves the buffer as it is. -/
theorem GetSubstring_out_of_range (m : RegEx P) (s : Int) (hs : isInt s)
    (buffer : List Char) (max : Int) (h : s < 0 ∨ Count m ≤ s) :
    GetSubstring m s buffer max = .ok ⟨true, buffer⟩ := by
  unfold GetSubstring
  rw [if_pos ((range_test_iff m s hs).2 h)]

/-- `GetSubstring` on an index inside `0 .. Count()-1` does not return `NULL`. -/
theorem GetSubstring_in_range (m : RegEx P) (s : Int) (hs : isInt s)
    (buffer : List Char) (max : Int) (h : ¬ (s < 0 ∨ Count m ≤ s)) (b : List Char) :
    GetSubstring m s buffer max ≠ .ok ⟨true, b⟩ := by
  unfold GetSubstring
  rw [if_neg (fun hc => h ((range_test_iff m s hs).1 hc))]
  split
  · simp
  · dsimp only
    split
    · simp
    · split <;> simp

/-- `GetSubstring` on a stored span that lies inside the subject copy. -/
theorem GetSubstring_eq (m : RegEx P) (s : Int) (hs : isInt s) (buffer : List Char)
    (max : Int) (subj : CString) (start stop : Int)
    (hs0 : 0 ≤ s) (hsub : m.mSubStrings[s.toNat]? = some ⟨start, stop⟩)
    (hsubj : m.subject = some subj)
    (h0 : 0 ≤ start) (h1 : start ≤ stop) (h2 : stop ≤ (subj.length : Int))
    (hmax : 0 ≤ max) (hbuf : min (stop - start) max < (buffer.length : Int)) :
    GetSubstring m s buffer max
      = .ok ⟨false, (subj.drop start.toNat).take (min (stop - start) max).toNat
          ++ NUL :: buffer.drop ((min (stop - start) max).toNat + 1)⟩ := by
  have hlen : s.toNat < m.mSubStrings.length := by
    by_contra hc
    rw [List.getElem?_eq_none (by omega)] at hsub
    exact Option.noConfusion hsub
  have hrange : ¬ (size_t_cast s ≥ m.mSubStrings.length ∨ s < 0) := by
    rw [size_t_cast_of_nonneg s hs hs0]; omega
  have hn : (min (stop - start) max).toNat < buffer.length := by omega
  have hcopy := copyChars_eq subj start 0 (min (stop - start) max).toNat buffer h0
    (by omega) (by omega)
  unfold GetSubstring
  rw [if_neg hrange]
  simp only [hsub, hsubj, Option.getD_some, hcopy]
  have hl : (min (stop - start) max).toNat
      < (List.take 0 buffer ++ List.take (min (stop - start) max).toNat
          (List.drop (start.toNat + 0) subj)
        ++ List.drop (0 + (min (stop - start) max).toNat) buffer).length := by
    simp only [List.take_zero, List.nil_append, List.length_append, List.length_take,
      List.length_drop]
    omega
  rw [if_pos hl]
  congr 2
  simp only [List.take_zero, List.nil_append, Nat.add_zero, Nat.zero_add]
  have hlt : ((subj.drop start.toNat).take (min (stop - start) max).toNat).length
      = (min (stop - start) max).toNat := by
    simp only [List.length_take, List.length_drop]; omega
  rw [List.set_append_right _ _ (by omega), hlt, Nat.sub_self]
  congr 1
  rw [List.drop_eq_getElem_cons hn]
  rfl

theorem strlen_append_NUL (X rest : List Char) (hX : ∀ c ∈ X, c ≠ NUL) :
    strlen (X ++ NUL :: rest) = X.length := by
  unfold strlen
  induction X with
  | nil => simp [List.takeWhile, notNUL_NUL]
  | cons x xs ih =>
    have hx : x ≠ NUL := hX x (List.mem_cons_self _ _)
    have h := ih (fun c hc => hX c (List.mem_cons_of_mem _ hc))
    simp only [List.cons_append, List.takeWhile, notNUL_eq_true hx, List.length_cons]
    exact congrArg (fun k => k + 1) h

theorem not_NUL_of_mem_slice (subj : CString) (a n : Nat) (h : a + n ≤ strlen subj)
    (c : Char) (hc : c ∈ (subj.drop a).take n) : c ≠ NUL := by
  apply not_NUL_of_mem_take subj (a + n) h
  rw [List.take_add]
  exact List.mem_append_right _ hc

/-- C6: for an index `s` in range whose stored span `(start, stop)` satisfies
`0 <= start <= stop <= strlen(subject)`, and `max >= 0`, with
`n = min(stop - start, max)` and a buffer that has a position `n`,
`GetSubstring(s, buffer, max)` returns `buffer`, which then holds the `n` chars
`subject[start .. start+n)`, the terminator at position `n`, and its old
contents above position `n`; the returned string has length `n`, and `n = max`
when the span is longer than `max`. -/
theorem GetSubstring_truncates (m : RegEx P) (s : Int) (buffer : List Char) (max : Int)
    (subj : CString) (start stop : Int)
    (hs : isInt s) (hs0 : 0 ≤ s)
    (hsub : m.mSubStrings[s.toNat]? = some ⟨start, stop⟩)
    (hsubj : m.subject = some subj)
    (h0 : 0 ≤ start) (h1 : start ≤ stop) (h2 : stop ≤ (strlen subj : Int))
    (hmax : 0 ≤ max) (hbuf : min (stop - start) max < (buffer.length : Int)) :
    ∃ buf : List Char,
      GetSubstring m s buffer max = .ok ⟨false, buf⟩
      ∧ buf.take (min (stop - start) max).toNat
          = (subj.drop start.toNat).take (min (stop - start) max).toNat
      ∧ ((subj.drop start.toNat).take (min (stop - start) max).toNat).length
          = (min (stop - start) max).toNat
      ∧ buf[(min (stop - start) max).toNat]? = some NUL
      ∧ buf.drop ((min (stop - start) max).toNat + 1)
          = buffer.drop ((min (stop - start) max).toNat + 1)
      ∧ buf.length = buffer.length
      ∧ strlen buf = (min (stop - start) max).toNat
      ∧ (max < stop - start → ((min (stop - start) max).toNat : Int) = max) := by
  have hle := strlen_le_length subj
  have hX : ((subj.drop start.toNat).take (min (stop - start) max).toNat).length
      = (min (stop - start) max).toNat := by
    simp only [List.length_take, List.length_drop]; omega
  refine ⟨_, GetSubstring_eq m s hs buffer max subj start stop hs0 hsub hsubj h0 h1
    (by omega) hmax hbuf, ?_, hX, ?_, ?_, ?_, ?_, ?_⟩
  · rw [List.take_append_of_le_length (by omega), List.take_of_length_le (by omega)]
  · rw [List.getElem?_append_right (by omega), hX, Nat.sub_self]
    simp
  · rw [List.drop_append_eq_append_drop, List.drop_of_length_le (by omega), hX]
    simp
  · simp only [List.length_append, List.length_take, List.length_drop, List.length_cons]
    omega
  · rw [strlen_append_NUL _ _ (fun c hc => not_NUL_of_mem_slice subj start.toNat
      (min (stop - start) max).toNat (by omega) c hc), hX]
  · intro hlt
    omega

/-- C6 at a concrete input: the span `(0, 8)` of `"old text"` read with
`max = 3` into a buffer of six chars gives `"old"`, the terminator at position
3, and leaves positions 4 and 5 alone. -/
theorem GetSubstring_truncates_witness :
    isInt 0 ∧ (0 : Int) ≤ 0
      ∧ (withOldMatch .word).mSubStrings[(0 : Int).toNat]? = some ⟨0, 8⟩
      ∧ (withOldMatch .word).subject = some (strcpy "old text".toList)
      ∧ (0 : Int) ≤ 8 ∧ (8 : Int) ≤ (strlen (strcpy "old text".toList) : Int)
      ∧ (0 : Int) ≤ 3 ∧ min ((8 : Int) - 0) 3 < (("zzzzzz".toList).length : Int)
      ∧ ∃ buf : List Char,
          GetSubstring (withOldMatch .word) 0 "zzzzzz".toList 3 = .ok ⟨false, buf⟩
          ∧ buf.take 3 = "old".toList
          ∧ ("old".toList).length = 3
          ∧ buf[3]? = some NUL
          ∧ buf.drop 4 = "zz".toList
          ∧ buf.length = 6
          ∧ strlen buf = 3
          ∧ ((3 : Int) < 8 - 0 → ((3 : Nat) : Int) = 3) :=
  ⟨by decide, by decide, rfl, rfl, by decide, by decide, by decide, by decide,
    GetSubstring_truncates (withOldMatch .word) 0 "zzzzzz".toList 3
      (strcpy "old text".toList) 0 8 (by decide) (by decide) rfl rfl (by decide)
      (by decide) (by decide) (by decide) (by decide)⟩

theorem Match_ok_subject (E : Engine P) (m m1 : RegEx P) (str : CString)
    (h : Match E m str = .ok (1, m1)) : m1.subject = some (strcpy str) := by
  unfold Match at h
  split at h
  · simp at h
  · split at h
    · simp at h
    · dsimp only at h
      split at h
      · split at h <;> simp at h
      · split at h
        · simp at h
        · simp only [Res.ok.injEq, Prod.mk.injEq, true_and] at h
          rw [← h]

theorem slice_strcpy (str : CString) (a b : Nat) (hb : b ≤ strlen str) :
    ((strcpy str).drop a).take (b - a) = (str.drop a).take (b - a) := by
  rw [← List.drop_take, ← List.drop_take, take_strcpy str b hb]

/-- C2: when `Match(str)` returns 1 with whole-match span `(s, e)`,
`0 <= s <= e <= strlen(str)`, a following `GetSubstring(0, buffer, max)` with
`max >= e - s` (and a buffer that has a position `e - s`) returns `buffer`
holding exactly the `e - s` chars `str[s .. e)`, read from the object's own
copy `subject`, followed by the terminator. -/
theorem Match_then_GetSubstring_whole (E : Engine P) (m m1 : RegEx P) (str : CString)
    (s e : Int) (buffer : List Char) (max : Int)
    (hm : Match E m str = .ok (1, m1))
    (hspan : m1.mSubStrings.head? = some ⟨s, e⟩)
    (hs : 0 ≤ s) (hse : s ≤ e) (he : e ≤ (strlen str : Int))
    (hmax : e - s ≤ max) (hbuf : e - s < (buffer.length : Int)) :
    m1.subject = some (strcpy str)
      ∧ GetSubstring m1 0 buffer max
          = .ok ⟨false, (str.drop s.toNat).take (e - s).toNat
              ++ NUL :: buffer.drop ((e - s).toNat + 1)⟩
      ∧ ((str.drop s.toNat).take (e - s).toNat).length = (e - s).toNat
      ∧ (str.drop s.toNat).take (e - s).toNat
          = ((strcpy str).drop s.toNat).take (e - s).toNat := by
  have hsubj := Match_ok_subject E m m1 str hm
  have hlen : strlen str ≤ str.length := strlen_le_length str
  have hcl : (strcpy str).length = strlen str + 1 := by simp [strcpy, strlen]
  have hmin : min (e - s) max = e - s := min_eq_left hmax
  have hsub : m1.mSubStrings[(0 : Int).toNat]? = some ⟨s, e⟩ := by
    rw [← hspan, List.head?_eq_getElem?]; rfl
  have hsl : ((strcpy str).drop s.toNat).take (e - s).toNat
      = (str.drop s.toNat).take (e - s).toNat := by
    have h1 : (e - s).toNat = e.toNat - s.toNat := by omega
    rw [h1]
    exact slice_strcpy str s.toNat e.toNat (by omega)
  have hget := GetSubstring_eq m1 0 (by decide) buffer max (strcpy str) s e (le_refl 0)
    hsub hsubj hs hse (by omega) (by omega) (by omega)
  rw [hmin, hsl] at hget
  refine ⟨hsubj, hget, ?_, hsl.symm⟩
  simp only [List.length_take, List.length_drop]
  omega

/-- C2 at a concrete input: `(\w+)` on `"  ab cd"` matches the span `(2, 4)`,
and index 0 read into a buffer of eight chars gives `"ab"` and the
terminator. -/
theorem Match_then_GetSubstring_whole_witness :
    Match demoEngine (withOldMatch .word) "  ab cd".toList = .ok (1, afterWordMatch)
      ∧ afterWordMatch.mSubStrings.head? = some ⟨2, 4⟩
      ∧ (0 : Int) ≤ 2 ∧ (2 : Int) ≤ 4 ∧ (4 : Int) ≤ (strlen "  ab cd".toList : Int)
      ∧ (4 : Int) - 2 ≤ 7 ∧ (4 : Int) - 2 < (("zzzzzzzz".toList).length : Int)
      ∧ afterWordMatch.subject = some (strcpy "  ab cd".toList)
      ∧ GetSubstring afterWordMatch 0 "zzzzzzzz".toList 7
          = .ok ⟨false, ['a', 'b', NUL, 'z', 'z', 'z', 'z', 'z']⟩ :=
  have h := Match_then_GetSubstring_whole demoEngine (withOldMatch .word) afterWordMatch
    "  ab cd".toList 2 4 "zzzzzzzz".toList 7 (by decide) rfl (by decide) (by decide)
    (by decide) (by decide) (by decide)
  ⟨by decide, rfl, by decide, by decide, by decide, by decide, by decide, h.1, h.2.1⟩

/-- C7: for an `int` index `s`, `GetSubstring(s, buffer, max)` returns `NULL`
exactly when `s < 0` or `s >= Count()`, and then the buffer is untouched; on a
freshly constructed object and directly after `ClearMatch` it returns `NULL`
for every index. -/
theorem GetSubstring_absent_iff (m : RegEx P) (s : Int) (buffer : List Char) (max : Int)
    (ov : Ovector) (hs : isInt s) :
    ((∃ b : List Char, GetSubstring m s buffer max = .ok ⟨true, b⟩)
        ↔ (s < 0 ∨ Count m ≤ s))
      ∧ ((s < 0 ∨ Count m ≤ s) → GetSubstring m s buffer max = .ok ⟨true, buffer⟩)
      ∧ GetSubstring (init ov : RegEx P) s buffer max = .ok ⟨true, buffer⟩
      ∧ GetSubstring (ClearMatch m) s buffer max = .ok ⟨true, buffer⟩ := by
  refine ⟨⟨?_, ?_⟩, GetSubstring_out_of_range m s hs buffer max, ?_, ?_⟩
  · rintro ⟨b, hb⟩
    by_contra hc
    exact GetSubstring_in_range m s hs buffer max hc b hb
  · intro h
    exact ⟨buffer, GetSubstring_out_of_range m s hs buffer max h⟩
  · apply GetSubstring_out_of_range _ s hs
    simp only [Count, init, List.length_nil]
    omega
  · apply GetSubstring_out_of_range _ s hs
    simp only [Count, ClearMatch, List.length_nil]
    omega

/-- C7 at a concrete input: index 3 on an object that holds three spans. -/
theorem GetSubstring_absent_iff_witness :
    isInt 3
      ∧ ((∃ b : List Char,
            GetSubstring (withOldMatch .word) 3 "zzzz".toList 3 = .ok ⟨true, b⟩)
          ↔ ((3 : Int) < 0 ∨ Count (withOldMatch .word) ≤ 3))
      ∧ GetSubstring (withOldMatch .word) 3 "zzzz".toList 3 = .ok ⟨true, "zzzz".toList⟩
      ∧ GetSubstring (init zeroOvector : RegEx DemoPattern) 3 "zzzz".toList 3
          = .ok ⟨true, "zzzz".toList⟩
      ∧ GetSubstring (ClearMatch (withOldMatch .word)) 3 "zzzz".toList 3
          = .ok ⟨true, "zzzz".toList⟩ :=
  have h := GetSubstring_absent_iff (withOldMatch .word) 3 "zzzz".toList 3 zeroOvector
    (by decide)
  ⟨by decide, h.1, h.2.1 (Or.inr (by decide)), h.2.2.1, h.2.2.2⟩

end RegEx

/-! ## `MatchAll` -/

namespace RegEx

variable {P : Type}

theorem totalSpans_nonneg (E : Engine P) (code : P) (subj : CString)
    (its : List (Int × Ovector)) :
    ∀ (offset : Int) (ov : Ovector), Iterations E code subj offset ov its →
      0 ≤ totalSpans its ∧ (its ≠ [] → 1 ≤ totalSpans its) := by
  induction its with
  | nil => intro _ _ _; exact ⟨le_refl 0, fun h => absurd rfl h⟩
  | cons it rest ih =>
    intro offset ov h
    obtain ⟨_, h1, _, hrest⟩ := h
    have := (ih _ _ hrest).1
    simp only [totalSpans]
    exact ⟨by omega, fun _ => by omega⟩

theorem length_groupSpans (E : Engine P) (code : P) (subj : CString)
    (its : List (Int × Ovector)) :
    ∀ (offset : Int) (ov : Ovector), Iterations E code subj offset ov its →
      ((groupSpans its).length : Int) = (its.map (fun it => it.1 - 1)).sum := by
  induction its with
  | nil => intro _ _ _; rfl
  | cons it rest ih =>
    intro offset ov h
    obtain ⟨_, h1, _, hrest⟩ := h
    have := ih _ _ hrest
    simp only [groupSpans, List.length_append, length_spansFrom, List.map_cons, List.sum_cons]
    omega

/-- The loop of `MatchAll` along a run of successful iterations that ends with
"no match": it appends the group spans of each iteration and adds up the span
counts, then goes on to the code after the loop. -/
theorem matchAllLoop_iterations (E : Engine P) (code : P) (subj : CString)
    (its : List (Int × Ovector)) :
    ∀ (fuel : Nat) (m : RegEx P) (rc offset : Int),
      m.subject = some subj → Iterations E code subj offset m.ovector its →
      its.length < fuel →
      ∃ ovF : Ovector, matchAllLoop E code fuel m rc offset
        = matchAllFinish { m with ovector := ovF,
                                  mSubStrings := m.mSubStrings ++ groupSpans its }
            (rc + totalSpans its) := by
  induction its with
  | nil =>
    intro fuel m rc offset hs hit hfuel
    obtain ⟨f, rfl⟩ : ∃ f, fuel = f + 1 := ⟨fuel - 1, by simp at hfuel; omega⟩
    simp only [Iterations] at hit
    refine ⟨(E.pcre_exec code subj (strlen subj : Int) offset 0 m.ovector OVECSIZE).2, ?_⟩
    simp only [matchAllLoop, hs, hit, PCRE_ERROR_NOMATCH, groupSpans, totalSpans,
      List.append_nil, add_zero]
    simp
  | cons it rest ih =>
    intro fuel m rc offset hs hit hfuel
    obtain ⟨f, rfl⟩ : ∃ f, fuel = f + 1 := ⟨fuel - 1, by simp at hfuel; omega⟩
    obtain ⟨hexec, h1, hcap, hrest⟩ := hit
    have hne0 : ¬ it.1 = 0 := by omega
    have hnneg : ¬ it.1 < 0 := by omega
    have happ := appendSubs_eq it.2 1 (it.1 - 1).toNat m.mSubStrings
      (by simp only [OVECSIZE] at hcap ⊢; omega)
    have hread := read_eq_getD it.2 1 (by decide)
    obtain ⟨ovF, hF⟩ := ih f
      { m with ovector := it.2,
               mSubStrings := m.mSubStrings ++ spansFrom it.2 1 (it.1 - 1).toNat }
      (rc + it.1) (it.2.val.getD 1 0) hs hrest (by simp at hfuel; omega)
    refine ⟨ovF, ?_⟩
    simp only [hs] at hF
    simp only [matchAllLoop, hs, hexec, hne0, hnneg, if_false, happ, hread]
    rw [hF]
    simp only [groupSpans, totalSpans, List.append_assoc, add_assoc]

/-- C3: on a compiled object, when the engine succeeds on the iterations
listed in `its` (iteration `k` with `rr_k >= 1` spans, each next call starting
at the end of the whole match just found) and then reports no match, and at
least one capture-group span was reported, `MatchAll` (with fuel for one call
more than `its` has entries) returns 1 and `mSubStrings` is the span
`(first.start, last.end)` followed by the group spans of iteration 1, of
iteration 2, and so on, `first` and `last` being the first and the last of
those group spans; `Count()` is `1 + sum (rr_k - 1)`. -/
theorem MatchAll_accumulates_groups (E : Engine P) (m : RegEx P) (code : P)
    (str : CString) (its : List (Int × Ovector)) (fuel : Nat)
    (hre : m.re = some code) (hfree : m.mFree = false)
    (hits : Iterations E code (strcpy str) 0 m.ovector its)
    (hne : groupSpans its ≠ [])
    (hfuel : its.length < fuel) :
    ∃ m1 : RegEx P, MatchAll E fuel m str = .ok (1, m1)
      ∧ m1.mSubStrings
          = ⟨((groupSpans its).head hne).start, ((groupSpans its).getLast hne).end_⟩
              :: groupSpans its
      ∧ Count m1 = 1 + (its.map (fun it => it.1 - 1)).sum
      ∧ m1.subject = some (strcpy str) := by
  have hits0 : its ≠ [] := by
    intro h; subst h; exact hne rfl
  have hpos := (totalSpans_nonneg E code (strcpy str) its 0 m.ovector hits).2 hits0
  obtain ⟨ovF, hF⟩ := matchAllLoop_iterations E code (strcpy str) its fuel
    { ClearMatch m with subject := some (strcpy str) } 0 0 rfl hits hfuel
  have hrc : ¬ (0 + totalSpans its = 0) := by omega
  refine ⟨{ m with mErrorOffset := 0, mError := none, subject := some (strcpy str),
                   ovector := ovF,
                   mSubStrings := ⟨((groupSpans its).head hne).start,
                     ((groupSpans its).getLast hne).end_⟩ :: groupSpans its }, ?_, rfl, ?_, rfl⟩
  · simp only [MatchAll, hre, hfree]
    rw [hF]
    simp only [matchAllFinish, hrc, if_false, ClearMatch, List.nil_append,
      List.head?_eq_head hne, List.getLast?_eq_getLast _ hne]
    simp [hre, hfree]
  · simp only [Count, List.length_cons]
    have := length_groupSpans E code (strcpy str) its 0 m.ovector hits
    push_cast
    omega

/-- C3 at a concrete input: `(\w+)` on `"ab cd"` gives 1, index 0 is `(0, 5)`,
index 1 reads `"ab"` and index 2 reads `"cd"`. -/
theorem MatchAll_accumulates_groups_witness :
    (compiled .word).re = some .word ∧ (compiled .word).mFree = false
      ∧ Iterations demoEngine .word (strcpy "ab cd".toList) 0 (compiled .word).ovector
          wordIterations
      ∧ groupSpans wordIterations ≠ []
      ∧ wordIterations.length < 3
      ∧ (∃ m1 : RegEx DemoPattern,
          MatchAll demoEngine 3 (compiled .word) "ab cd".toList = .ok (1, m1)
          ∧ m1.mSubStrings = [⟨0, 5⟩, ⟨0, 2⟩, ⟨3, 5⟩]
          ∧ Count m1 = 1 + ((2 - 1) + ((2 - 1) + 0))
          ∧ m1.subject = some (strcpy "ab cd".toList))
      ∧ MatchAll demoEngine 3 (compiled .word) "ab cd".toList = .ok (1, afterWordMatchAll)
      ∧ GetSubstring afterWordMatchAll 1 "zzzz".toList 3
          = .ok ⟨false, ['a', 'b', NUL, 'z']⟩
      ∧ GetSubstring afterWordMatchAll 2 "zzzz".toList 3
          = .ok ⟨false, ['c', 'd', NUL, 'z']⟩ :=
  have hits : Iterations demoEngine .word (strcpy "ab cd".toList) 0
      (compiled .word).ovector wordIterations := by
    decide
  ⟨rfl, rfl, hits, by decide, by decide,
    MatchAll_accumulates_groups demoEngine (compiled .word) .word "ab cd".toList
      wordIterations 3 rfl rfl hits (by decide) (by decide),
    by decide, by decide, by decide⟩

theorem matchAllFinish_not_matched (m m1 : RegEx P) (rc r : Int)
    (h : matchAllFinish m rc = .ok (r, m1))
    (hinv : rc = 0 → m.mSubStrings = []) (hr : r ≠ 1) : m1.mSubStrings = [] := by
  unfold matchAllFinish at h
  split at h
  · next h0 =>
    simp only [Res.ok.injEq, Prod.mk.injEq] at h
    rw [← h.2]
    exact hinv h0
  · split at h
    · simp only [Res.ok.injEq, Prod.mk.injEq] at h
      exact absurd h.1.symm hr
    · exact Res.noConfusion h

theorem matchAllFinish_ne_noMatch (m m1 : RegEx P) (rc : Int) (hrc : 1 ≤ rc) :
    matchAllFinish m rc ≠ .ok (0, m1) := by
  have h0 : ¬ rc = 0 := by omega
  unfold matchAllFinish
  rw [if_neg h0]
  split <;> simp

/-- Whenever the loop of `MatchAll` ends with a result other than 1, no span is
left in `mSubStrings`. -/
theorem matchAllLoop_not_matched (E : Engine P) (code : P) :
    ∀ (fuel : Nat) (m : RegEx P) (rc offset r : Int) (m1 : RegEx P),
      0 ≤ rc → (rc = 0 → m.mSubStrings = []) →
      matchAllLoop E code fuel m rc offset = .ok (r, m1) → r ≠ 1 →
      m1.mSubStrings = [] := by
  intro fuel
  induction fuel with
  | zero =>
    intro m rc offset r m1 _ _ h _
    exact Res.noConfusion h
  | succ f ih =>
    intro m rc offset r m1 hrc hinv h hr
    unfold matchAllLoop at h
    split at h
    · exact Res.noConfusion h
    · dsimp only at h
      split at h
      · exact matchAllFinish_not_matched _ m1 rc r h hinv hr
      · split at h
        · split at h
          · exact matchAllFinish_not_matched _ m1 rc r h hinv hr
          · simp only [Res.ok.injEq, Prod.mk.injEq] at h
            rw [← h.2]
            split
            · rfl
            · next hc =>
              simp only [ne_eq, not_not] at hc
              exact hinv hc
        · next hne0 hnneg =>
          split at h
          · exact Res.noConfusion h
          · split at h
            · exact Res.noConfusion h
            · exact ih _ _ _ r m1 (by omega) (fun hc => by omega) h hr

/-- Once a span has been counted, the loop of `MatchAll` cannot end with the
result 0. -/
theorem matchAllLoop_ne_noMatch (E : Engine P) (code : P) :
    ∀ (fuel : Nat) (m : RegEx P) (rc offset : Int) (m1 : RegEx P),
      1 ≤ rc → matchAllLoop E code fuel m rc offset ≠ .ok (0, m1) := by
  intro fuel
  induction fuel with
  | zero =>
    intro m rc offset m1 _ h
    exact Res.noConfusion h
  | succ f ih =>
    intro m rc offset m1 hrc h
    unfold matchAllLoop at h
    split at h
    · exact Res.noConfusion h
    · dsimp only at h
      split at h
      · exact matchAllFinish_ne_noMatch _ m1 rc hrc h
      · split at h
        · split at h
          · exact matchAllFinish_ne_noMatch _ m1 rc hrc h
          · simp at h
        · split at h
          · exact Res.noConfusion h
          · split at h
            · exact Res.noConfusion h
            · exact ih _ _ _ m1 (by omega) h

/-- C4, the code at the failing input: for the pattern `foo` (no capture
group) on `"foo foo foo"` the engine succeeds three times with one span each,
so `rc` is 3 after the loop while `mSubStrings` is empty, and `MatchAll`
calls `mSubStrings.at(0)` on the empty vector instead of returning 0; with no
amount of fuel is the result 0. -/
theorem MatchAll_no_groups_faults :
    MatchAll demoEngine 4 (compiled .foo) "foo foo foo".toList = .fault
      ∧ (demoEngine.pcre_exec .foo (strcpy "foo foo foo".toList) 11 0 0 zeroOvector
          OVECSIZE).1 = 1
      ∧ ∀ (fuel : Nat) (m1 : RegEx DemoPattern),
          MatchAll demoEngine fuel (compiled .foo) "foo foo foo".toList ≠ .ok (0, m1) := by
  refine ⟨by decide, by decide, ?_⟩
  intro fuel m1
  cases fuel with
  | zero => intro h; exact Res.noConfusion h
  | succ f =>
    exact matchAllLoop_ne_noMatch demoEngine .foo f _ 1 3 m1 (by decide)

theorem aStar_exec (ov : Ovector) :
    demoEngine.pcre_exec .aStar (strcpy "b".toList) (strlen (strcpy "b".toList) : Int)
      0 0 ov OVECSIZE = (2, ov.store [0, 0, 0, 0]) := rfl

theorem aStar_loop :
    ∀ (fuel : Nat) (m : RegEx DemoPattern) (rc : Int),
      m.subject = some (strcpy "b".toList) →
      matchAllLoop demoEngine .aStar fuel m rc 0 = .outOfFuel := by
  intro fuel
  induction fuel with
  | zero => intro _ _ _; rfl
  | succ f ih =>
    intro m rc hs
    have h2 : ¬ ((2 : Int) = 0) := by decide
    have h3 : ¬ ((2 : Int) < 0) := by decide
    have happ := appendSubs_eq (m.ovector.store [0, 0, 0, 0]) 1 1 m.mSubStrings (by decide)
    have hread : (m.ovector.store [0, 0, 0, 0]).read 1 = some 0 := rfl
    have h1 : ((2 : Int) - 1).toNat = 1 := by decide
    simp only [matchAllLoop, hs, aStar_exec, h2, h3, if_false, h1, happ, hread]
    exact ih _ _ rfl

/-- C5, the code at the failing input: for the pattern `(a*)` on `"b"` the
engine matches the empty string at offset 0, `offset = ovector[1]` is 0 again,
and the loop of `MatchAll` calls the engine at offset 0 for ever: whatever the
fuel, it is used up. -/
theorem MatchAll_zero_length_never_ends :
    (∀ fuel : Nat, MatchAll demoEngine fuel (compiled .aStar) "b".toList = .outOfFuel)
      ∧ demoEngine.pcre_exec .aStar (strcpy "b".toList) 1 0 0 zeroOvector OVECSIZE
          = (2, zeroOvector.store [0, 0, 0, 0])
      ∧ (zeroOvector.store [0, 0, 0, 0]).read 1 = some 0 := by
  refine ⟨fun fuel => ?_, by decide, by decide⟩
  exact aStar_loop fuel _ 0 rfl

theorem no_captures (m1 : RegEx P) (h : m1.mSubStrings = []) :
    Count m1 = 0 ∧ ∀ (s : Int) (buffer : List Char) (max : Int), isInt s →
      GetSubstring m1 s buffer max = .ok ⟨true, buffer⟩ := by
  have hc : Count m1 = 0 := by simp [Count, h]
  refine ⟨hc, fun s buffer max hs => GetSubstring_out_of_range m1 s hs buffer max ?_⟩
  rw [hc]
  omega

theorem Match_not_matched (E : Engine P) (m m1 : RegEx P) (code : P) (str : CString)
    (r : Int) (hre : m.re = some code) (hfree : m.mFree = false)
    (h : Match E m str = .ok (r, m1)) (hr : r ≠ 1) : m1.mSubStrings = [] := by
  simp only [Match, hre, hfree, Bool.false_eq_true, if_false] at h
  split at h
  · split at h
    · simp only [Res.ok.injEq, Prod.mk.injEq] at h
      rw [← h.2]; rfl
    · simp only [Res.ok.injEq, Prod.mk.injEq] at h
      rw [← h.2]; rfl
  · split at h
    · exact Res.noConfusion h
    · simp only [Res.ok.injEq, Prod.mk.injEq] at h
      exact absurd h.1.symm hr

/-- C9: on a compiled object in any prior state, when `Match` or `MatchAll`
returns 0 or -1, then afterwards `Count()` is 0 and `GetSubstring` returns
`NULL` for every index: neither spans of an earlier match nor spans
accumulated by the failed call are left. -/
theorem failed_match_leaves_no_captures (E : Engine P) (m : RegEx P) (code : P)
    (str : CString) (fuel : Nat)
    (hre : m.re = some code) (hfree : m.mFree = false) :
    (∀ (r : Int) (m1 : RegEx P), Match E m str = .ok (r, m1) → (r = 0 ∨ r = -1) →
        Count m1 = 0 ∧ ∀ (s : Int) (buffer : List Char) (max : Int), isInt s →
          GetSubstring m1 s buffer max = .ok ⟨true, buffer⟩)
      ∧ (∀ (r : Int) (m1 : RegEx P), MatchAll E fuel m str = .ok (r, m1) →
          (r = 0 ∨ r = -1) →
          Count m1 = 0 ∧ ∀ (s : Int) (buffer : List Char) (max : Int), isInt s →
            GetSubstring m1 s buffer max = .ok ⟨true, buffer⟩) := by
  constructor
  · intro r m1 h hr
    exact no_captures m1 (Match_not_matched E m m1 code str r hre hfree h (by omega))
  · intro r m1 h hr
    simp only [MatchAll, hre, hfree, Bool.false_eq_true, if_false] at h
    exact no_captures m1
      (matchAllLoop_not_matched E code fuel _ 0 0 r m1 (le_refl 0) (fun _ => rfl) h
        (by omega))

/-- C9 at concrete inputs, on objects that hold three spans of an earlier
match: `(\w+)` on `"!!!"`, where both functions return 0, and `((a+)+b)` on
`limitSubject`, where `MatchAll` returns -1 after it has accumulated the two
group spans of its first iteration. -/
theorem failed_match_leaves_no_captures_witness :
    (withOldMatch .word).re = some .word ∧ (withOldMatch .word).mFree = false
      ∧ (∃ m1, Match demoEngine (withOldMatch .word) "!!!".toList = .ok (0, m1)
          ∧ Count m1 = 0 ∧ GetSubstring m1 0 "zz".toList 1 = .ok ⟨true, "zz".toList⟩)
      ∧ (∃ m1, MatchAll demoEngine 1 (withOldMatch .word) "!!!".toList = .ok (0, m1)
          ∧ Count m1 = 0 ∧ GetSubstring m1 0 "zz".toList 1 = .ok ⟨true, "zz".toList⟩)
      ∧ (withOldMatch .nested).re = some .nested ∧ (withOldMatch .nested).mFree = false
      ∧ (∃ m1, MatchAll demoEngine 2 (withOldMatch .nested) limitSubject = .ok (-1, m1)
          ∧ Count m1 = 0 ∧ GetSubstring m1 1 "zz".toList 1 = .ok ⟨true, "zz".toList⟩) :=
  have hw := failed_match_leaves_no_captures demoEngine (withOldMatch .word) .word
    "!!!".toList 1 rfl rfl
  have hn := failed_match_leaves_no_captures demoEngine (withOldMatch .nested) .nested
    limitSubject 2 rfl rfl
  have e1 : Match demoEngine (withOldMatch .word) "!!!".toList
      = .ok (0, { compiled .word with subject := some (strcpy "!!!".toList) }) := by decide
  have e2 : MatchAll demoEngine 1 (withOldMatch .word) "!!!".toList
      = .ok (0, { compiled .word with subject := some (strcpy "!!!".toList) }) := by decide
  have e3 : MatchAll demoEngine 2 (withOldMatch .nested) limitSubject
      = .ok (-1, { compiled .nested with ovector := zeroOvector.store [0, 2, 0, 2, 0, 1] }) := by
    decide
  ⟨rfl, rfl,
    ⟨_, e1, (hw.1 _ _ e1 (Or.inl rfl)).1, (hw.1 _ _ e1 (Or.inl rfl)).2 0 _ 1 (by decide)⟩,
    ⟨_, e2, (hw.2 _ _ e2 (Or.inl rfl)).1, (hw.2 _ _ e2 (Or.inl rfl)).2 0 _ 1 (by decide)⟩,
    rfl, rfl,
    ⟨_, e3, (hn.2 _ _ e3 (Or.inr rfl)).1, (hn.2 _ _ e3 (Or.inr rfl)).2 1 _ 1 (by decide)⟩⟩

/-- C10, the code at the failing input: for `((a+)+b)` on `limitSubject` the
first iteration of `MatchAll` succeeds with three spans and the second call of
the engine returns `PCRE_ERROR_MATCHLIMIT` (-8).  `MatchAll` stores -8 in
`mErrorOffset`, and then, `rc` being 3, calls `ClearMatch`, which sets
`mErrorOffset` back to 0: it returns -1 with `mErrorOffset = 0`.  `Match` on
an engine error, and `MatchAll` when the error comes on the first call, leave
the code in `mErrorOffset`. -/
theorem MatchAll_later_error_code_lost :
    demoEngine.pcre_exec .nested (strcpy limitSubject) (strlen (strcpy limitSubject) : Int)
        0 0 zeroOvector OVECSIZE = (3, zeroOvector.store [0, 2, 0, 2, 0, 1])
      ∧ demoEngine.pcre_exec .nested (strcpy limitSubject)
          (strlen (strcpy limitSubject) : Int) 2 0
          (zeroOvector.store [0, 2, 0, 2, 0, 1]) OVECSIZE
          = (-8, zeroOvector.store [0, 2, 0, 2, 0, 1])
      ∧ MatchAll demoEngine 2 (compiled .nested) limitSubject
          = .ok (-1, { compiled .nested with
                        mErrorOffset := 0, ovector := zeroOvector.store [0, 2, 0, 2, 0, 1] })
      ∧ Match demoEngine (compiled .nested) (limitSubject.drop 3)
          = .ok (-1, { compiled .nested with
                        mErrorOffset := -8, subject := some (strcpy (limitSubject.drop 3)) })
      ∧ MatchAll demoEngine 1 (compiled .nested) (limitSubject.drop 3)
          = .ok (-1, { compiled .nested with
                        mErrorOffset := -8, subject := some (strcpy (limitSubject.drop 3)) }) := by
  refine ⟨by decide, by decide, by decide, by decide, by decide⟩

end RegEx

/-! ## `Compile` -/

namespace RegEx

variable {P : Type}

theorem Match_uncompiled (E : Engine P) (m : RegEx P) (str : CString)
    (h : m.mFree = true) : Match E m str = .ok (-1, m) := by
  unfold Match
  split
  · rfl
  · rw [if_pos h]

theorem MatchAll_uncompiled (E : Engine P) (fuel : Nat) (m : RegEx P) (str : CString)
    (h : m.mFree = true) : MatchAll E fuel m str = .ok (-1, m) := by
  unfold MatchAll
  split
  · rfl
  · rw [if_pos h]

theorem compileTail_rejected (E : Engine P) (m : RegEx P) (pattern : CString)
    (iFlags : Int) (err : Option CString) (off : Int)
    (h : E.pcre_compile pattern iFlags m.mError m.mErrorOffset = (none, err, off)) :
    compileTail E m pattern iFlags
      = (0, { m with re := none, mError := err, mErrorOffset := off }) := by
  unfold compileTail
  rw [h]

/-- C8: on an object that holds a compiled pattern (with or without match
results), when the engine rejects the pattern, `Compile` (either overload)
returns 0 and afterwards `mFree` is true, `re` is `NULL`, `mSubStrings` is
empty, `subject` is `NULL`, `mError` and `mErrorOffset` are the message and
offset the engine gave, and `Match` and `MatchAll` on any string return -1,
change nothing and leave `Count()` at 0. -/
theorem Compile_rejected_leaves_uncompiled (E : Engine P) (m : RegEx P) (code : P)
    (pattern : CString) (flags : Option CString) (iFlags : Int)
    (hc : m.re = some code ∧ m.mFree = false) :
    (∀ (err : Option CString) (off : Int),
        E.pcre_compile pattern (translateFlags flags : Int) none 0 = (none, err, off) →
        ∃ m1 : RegEx P, Compile E m pattern flags = (0, m1)
          ∧ m1.mFree = true ∧ m1.re = none ∧ m1.mSubStrings = [] ∧ m1.subject = none
          ∧ m1.mError = err ∧ m1.mErrorOffset = off
          ∧ ∀ (str : CString) (fuel : Nat),
              Match E m1 str = .ok (-1, m1) ∧ MatchAll E fuel m1 str = .ok (-1, m1)
              ∧ Count m1 = 0)
      ∧ (∀ (err : Option CString) (off : Int),
          E.pcre_compile pattern iFlags none 0 = (none, err, off) →
          ∃ m1 : RegEx P, CompileInt E m pattern iFlags = (0, m1)
            ∧ m1.mFree = true ∧ m1.re = none ∧ m1.mSubStrings = [] ∧ m1.subject = none
            ∧ m1.mError = err ∧ m1.mErrorOffset = off
            ∧ ∀ (str : CString) (fuel : Nat),
                Match E m1 str = .ok (-1, m1) ∧ MatchAll E fuel m1 str = .ok (-1, m1)
                ∧ Count m1 = 0) := by
  have hfree : m.mFree = false := hc.2
  constructor
  · intro err off h
    refine ⟨{ Clear m with re := none, mError := err, mErrorOffset := off }, ?_,
      rfl, rfl, rfl, rfl, rfl, rfl, fun str fuel => ⟨?_, ?_, rfl⟩⟩
    · simp only [Compile, hfree, Bool.not_false, if_true]
      exact compileTail_rejected E (Clear m) pattern _ err off h
    · exact Match_uncompiled E _ str rfl
    · exact MatchAll_uncompiled E fuel _ str rfl
  · intro err off h
    refine ⟨{ Clear m with re := none, mError := err, mErrorOffset := off }, ?_,
      rfl, rfl, rfl, rfl, rfl, rfl, fun str fuel => ⟨?_, ?_, rfl⟩⟩
    · simp only [CompileInt, hfree, Bool.not_false, if_true]
      exact compileTail_rejected E (Clear m) pattern _ err off h
    · exact Match_uncompiled E _ str rfl
    · exact MatchAll_uncompiled E fuel _ str rfl

/-- C8 at a concrete input: an object holding `(\w+)` and three spans of an
earlier match is recompiled with the pattern `(`, which the engine rejects
with `missing )` at offset 1. -/
theorem Compile_rejected_leaves_uncompiled_witness :
    ((withOldMatch .word).re = some .word ∧ (withOldMatch .word).mFree = false)
      ∧ demoEngine.pcre_compile "(".toList (translateFlags (some "i".toList) : Int) none 0
          = (none, some "missing )".toList, 1)
      ∧ demoEngine.pcre_compile "(".toList 1 none 0 = (none, some "missing )".toList, 1)
      ∧ (∃ m1 : RegEx DemoPattern,
          Compile demoEngine (withOldMatch .word) "(".toList (some "i".toList) = (0, m1)
          ∧ m1.mFree = true ∧ m1.re = none ∧ m1.mSubStrings = [] ∧ m1.subject = none
          ∧ m1.mError = some "missing )".toList ∧ m1.mErrorOffset = 1
          ∧ ∀ (str : CString) (fuel : Nat),
              Match demoEngine m1 str = .ok (-1, m1)
              ∧ MatchAll demoEngine fuel m1 str = .ok (-1, m1) ∧ Count m1 = 0)
      ∧ (∃ m1 : RegEx DemoPattern,
          CompileInt demoEngine (withOldMatch .word) "(".toList 1 = (0, m1)
          ∧ m1.mFree = true ∧ m1.re = none ∧ m1.mSubStrings = [] ∧ m1.subject = none
          ∧ m1.mError = some "missing )".toList ∧ m1.mErrorOffset = 1
          ∧ ∀ (str : CString) (fuel : Nat),
              Match demoEngine m1 str = .ok (-1, m1)
              ∧ MatchAll demoEngine fuel m1 str = .ok (-1, m1) ∧ Count m1 = 0) :=
  have h := Compile_rejected_leaves_uncompiled demoEngine (withOldMatch .word) .word
    "(".toList (some "i".toList) 1 ⟨rfl, rfl⟩
  ⟨⟨rfl, rfl⟩, by decide, by decide, h.1 _ _ (by decide), h.2 _ _ (by decide)⟩

end RegEx

/-! ## Order of the accumulated spans -/

namespace RegEx

variable {P : Type}

theorem getD_of_read (ov : Ovector) (i : Nat) (a : Int) (h : ov.read i = some a) :
    ov.val.getD i 0 = a := by
  unfold Ovector.read at h
  simp [List.getD, h]

theorem appendSubs_some (ov : Ovector) (s n : Nat) (subs x : List RegExSub)
    (h : appendSubs ov s n subs = some x) : x = subs ++ spansFrom ov s n := by
  induction n generalizing s subs with
  | zero =>
    simp only [appendSubs, Option.some.injEq] at h
    simp [spansFrom, h]
  | succ k ih =>
    unfold appendSubs at h
    split at h
    · next a b ha hb =>
      rw [ih _ _ h, spansFrom, getD_of_read ov _ a ha, getD_of_read ov _ b hb]
      simp
    · exact Option.noConfusion h

theorem mem_spansFrom (ov : Ovector) (s n : Nat) (b : RegExSub)
    (h : b ∈ spansFrom ov s n) :
    ∃ k : Nat, s ≤ k ∧ k < s + n
      ∧ b = ⟨ov.val.getD (2 * k) 0, ov.val.getD (2 * k + 1) 0⟩ := by
  induction n generalizing s with
  | zero => simp [spansFrom] at h
  | succ j ih =>
    rw [spansFrom, List.mem_cons] at h
    rcases h with h | h
    · exact ⟨s, le_refl s, by omega, h⟩
    · obtain ⟨k, h1, h2, h3⟩ := ih (s + 1) h
      exact ⟨k, by omega, by omega, h3⟩

theorem groupSpans_cons (it : Int × Ovector) (rest : List (Int × Ovector)) :
    groupSpans (it :: rest) = iterationGroups it ++ groupSpans rest := rfl

theorem matchAllFinish_matched (m m1 : RegEx P) (rc : Int)
    (h : matchAllFinish m rc = .ok (1, m1)) :
    m1.mSubStrings.tail = m.mSubStrings ∧ m1.subject = m.subject
      ∧ (∃ first last : RegExSub, m.mSubStrings.head? = some first
          ∧ m.mSubStrings.getLast? = some last
          ∧ m1.mSubStrings.head? = some ⟨first.start, last.end_⟩) := by
  unfold matchAllFinish at h
  split at h
  · simp at h
  · split at h
    · next first last hf hl =>
      simp only [Res.ok.injEq, Prod.mk.injEq, true_and] at h
      rw [← h]
      exact ⟨rfl, rfl, first, last, hf, hl, rfl⟩
    · exact Res.noConfusion h

/-- Every run of the loop of `MatchAll` that ends with the result 1 went
through a list of successful engine calls, and what it leaves after index 0 is
what was there before followed by the group spans of those calls; index 0 is
made of the first and the last of these spans. -/
theorem matchAllLoop_matched_run (E : Engine P) (code : P) (subj : CString) :
    ∀ (fuel : Nat) (m : RegEx P) (rc offset : Int) (m1 : RegEx P),
      m.subject = some subj → matchAllLoop E code fuel m rc offset = .ok (1, m1) →
      ∃ its : List (Int × Ovector), LoopRun E code subj offset m.ovector its
        ∧ m1.mSubStrings.tail = m.mSubStrings ++ groupSpans its
        ∧ m1.subject = some subj
        ∧ (∃ first last : RegExSub,
            (m.mSubStrings ++ groupSpans its).head? = some first
            ∧ (m.mSubStrings ++ groupSpans its).getLast? = some last
            ∧ m1.mSubStrings.head? = some ⟨first.start, last.end_⟩) := by
  intro fuel
  induction fuel with
  | zero =>
    intro m rc offset m1 _ h
    exact Res.noConfusion h
  | succ f ih =>
    intro m rc offset m1 hs h
    unfold matchAllLoop at h
    rw [hs] at h
    dsimp only at h
    split at h
    · next h0 =>
      obtain ⟨ht, hsub, hfl⟩ := matchAllFinish_matched _ m1 rc h
      refine ⟨[], Or.inl h0, ?_, ?_, ?_⟩
      · rw [ht]; simp [groupSpans]
      · exact hsub
      · simpa [groupSpans] using hfl
    · split at h
      · split at h
        · next hnm =>
          obtain ⟨ht, hsub, hfl⟩ := matchAllFinish_matched _ m1 rc h
          refine ⟨[], Or.inr hnm, ?_, ?_, ?_⟩
          · rw [ht]; simp [groupSpans]
          · exact hsub
          · simpa [groupSpans] using hfl
        · simp at h
      · next hne0 hnneg =>
        split at h
        · exact Res.noConfusion h
        · next subs happ =>
          split at h
          · exact Res.noConfusion h
          · next off hoff =>
            obtain ⟨its, hrun, ht, hsub, hfl⟩ := ih _ _ _ m1 rfl h
            have hsubs := appendSubs_some _ _ _ _ _ happ
            have hoffv := getD_of_read _ _ _ hoff
            refine ⟨(E.pcre_exec code subj (strlen subj : Int) offset 0 m.ovector OVECSIZE)
              :: its, ⟨rfl, by omega, ?_⟩, ?_, hsub, ?_⟩
            · rw [hoffv]; exact hrun
            · rw [ht, hsubs, groupSpans_cons, List.append_assoc]; rfl
            · rw [hsubs, List.append_assoc] at hfl
              exact hfl

theorem mem_iterationGroups (it : Int × Ovector) (b : RegExSub)
    (h : b ∈ iterationGroups it) :
    ∃ k : Nat, 1 ≤ k ∧ (k : Int) < it.1
      ∧ b = ⟨it.2.val.getD (2 * k) 0, it.2.val.getD (2 * k + 1) 0⟩ := by
  obtain ⟨k, h1, h2, h3⟩ := mem_spansFrom it.2 1 (it.1 - 1).toNat b h
  exact ⟨k, h1, by omega, h3⟩

/-- Along a run of the loop, with an engine that reports matches at or after
the start offset and groups inside the match, every group span of the run
starts at or after the offset the run began with. -/
theorem LoopRun_groups_after (E : Engine P) (code : P) (subj : CString)
    (hE : ReportsInside E code) (its : List (Int × Ovector)) :
    ∀ (offset : Int) (ov : Ovector), LoopRun E code subj offset ov its →
      ∀ it ∈ its, ∀ b ∈ iterationGroups it, offset ≤ b.start := by
  induction its with
  | nil => intro _ _ _ it hit; simp at hit
  | cons hd rest ih =>
    intro offset ov hrun it hit b hb
    obtain ⟨hexec, h1, hrest⟩ := hrun
    have hin := hE subj (strlen subj : Int) offset 0 ov OVECSIZE (by rw [hexec]; exact h1)
    rw [hexec] at hin
    obtain ⟨ha, hb2, hg⟩ := hin
    rw [List.mem_cons] at hit
    rcases hit with rfl | hit
    · obtain ⟨k, hk1, hk2, rfl⟩ := mem_iterationGroups it b hb
      have := (hg k hk1 hk2).1
      show offset ≤ it.2.val.getD (2 * k) 0
      omega
    · have := ih _ _ hrest it hit b hb
      omega

theorem LoopRun_pairwise (E : Engine P) (code : P) (subj : CString)
    (hE : ReportsInside E code) (its : List (Int × Ovector)) :
    ∀ (offset : Int) (ov : Ovector), LoopRun E code subj offset ov its →
      List.Pairwise (fun itA itB => ∀ a ∈ iterationGroups itA, ∀ b ∈ iterationGroups itB,
        a.end_ ≤ b.start ∧ a.start ≤ b.start) its := by
  induction its with
  | nil => intro _ _ _; exact List.Pairwise.nil
  | cons hd rest ih =>
    intro offset ov hrun
    obtain ⟨hexec, h1, hrest⟩ := hrun
    have hin := hE subj (strlen subj : Int) offset 0 ov OVECSIZE (by rw [hexec]; exact h1)
    rw [hexec] at hin
    obtain ⟨_, _, hg⟩ := hin
    refine List.Pairwise.cons ?_ (ih _ _ hrest)
    intro itB hB a ha b hb
    obtain ⟨k, hk1, hk2, rfl⟩ := mem_iterationGroups hd a ha
    have h2 := hg k hk1 hk2
    have h3 := LoopRun_groups_after E code subj hE rest _ _ hrest itB hB b hb
    show hd.2.val.getD (2 * k + 1) 0 ≤ b.start ∧ hd.2.val.getD (2 * k) 0 ≤ b.start
    omega

/-- C11: with an engine that only reports matches whose whole-match span
begins at or after the requested start offset and whose capture-group spans
lie inside that span, every `MatchAll` that returns 1 went through a list
`its` of successful engine calls, the spans at indices `1 ..` of
`mSubStrings` are the group spans of these iterations in order, and for any
two spans `a`, `b` where `a` comes from an earlier iteration than `b`,
`a.end <= b.start` and `a.start <= b.start`. -/
theorem MatchAll_groups_progress (E : Engine P) (m m1 : RegEx P) (code : P)
    (str : CString) (fuel : Nat)
    (hre : m.re = some code) (hE : ReportsInside E code)
    (h : MatchAll E fuel m str = .ok (1, m1)) :
    ∃ its : List (Int × Ovector),
      LoopRun E code (strcpy str) 0 m.ovector its
      ∧ m1.mSubStrings.tail = groupSpans its
      ∧ List.Pairwise (fun itA itB => ∀ a ∈ iterationGroups itA, ∀ b ∈ iterationGroups itB,
          a.end_ ≤ b.start ∧ a.start ≤ b.start) its := by
  simp only [MatchAll, hre] at h
  split at h
  · simp at h
  · obtain ⟨its, hrun, ht, _, _⟩ :=
      matchAllLoop_matched_run E code (strcpy str) fuel _ 0 0 m1 rfl h
    exact ⟨its, hrun, by simpa [ClearMatch] using ht,
      LoopRun_pairwise E code (strcpy str) hE its 0 _ hrun⟩

theorem store4_getD (ov : Ovector) (a b c d : Int) :
    (ov.store [a, b, c, d]).val.getD 0 0 = a ∧ (ov.store [a, b, c, d]).val.getD 1 0 = b
      ∧ (ov.store [a, b, c, d]).val.getD 2 0 = c
      ∧ (ov.store [a, b, c, d]).val.getD 3 0 = d :=
  ⟨rfl, rfl, rfl, rfl⟩

/-- What the example engine answers for `(\w+)`: a negative code, or two
equal spans `(s, e)` with `startoffset <= s <= e <= length`. -/
theorem word_exec (subject : CString) (length startoffset options : Int) (ov : Ovector)
    (ovecsize : Nat) :
    (demoExec .word subject length startoffset options ov ovecsize).1 < 0
      ∨ ∃ s e : Nat, demoExec .word subject length startoffset options ov ovecsize
            = (2, ov.store [(s : Int), (e : Int), (s : Int), (e : Int)])
          ∧ startoffset ≤ (s : Int) ∧ s ≤ e ∧ (e : Int) ≤ length := by
  unfold demoExec
  by_cases hg : startoffset < 0 ∨ length < startoffset
  · left
    rw [if_pos hg]
    show PCRE_ERROR_BADOFFSET < 0
    decide
  · rw [if_neg hg]
    dsimp only
    split
    · left
      show PCRE_ERROR_NOMATCH < 0
      decide
    · right
      refine ⟨_, _, rfl, ?_, ?_, ?_⟩
      · push_cast; omega
      · omega
      · have h1 := (List.takeWhile_sublist (fun c => !isWordChar c)
          (l := List.drop startoffset.toNat (List.take length.toNat subject))).length_le
        have h2 := (List.takeWhile_sublist isWordChar
          (l := List.drop (List.takeWhile (fun c => !isWordChar c)
            (List.drop startoffset.toNat (List.take length.toNat subject))).length
            (List.drop startoffset.toNat (List.take length.toNat subject)))).length_le
        simp only [List.length_drop, List.length_take] at h1 h2
        push_cast
        omega

theorem word_reportsInside : ReportsInside demoEngine .word := by
  intro subject length startoffset options ov ovecsize h1
  show InsideWhole startoffset (demoExec .word subject length startoffset options ov ovecsize)
  have h1 : 1 ≤ (demoExec .word subject length startoffset options ov ovecsize).1 := h1
  rcases word_exec subject length startoffset options ov ovecsize with hneg | ⟨s, e, he, ha, hb, _⟩
  · omega
  · rw [he]
    obtain ⟨g0, g1, g2, g3⟩ := store4_getD ov s e s e
    refine ⟨by rw [g0]; exact ha, by rw [g0, g1]; exact_mod_cast hb, ?_⟩
    intro k hk1 hk2
    have hk : k = 1 := by
      have : (k : Int) < 2 := hk2
      omega
    subst hk
    show _ ≤ (ov.store [(s : Int), (e : Int), (s : Int), (e : Int)]).val.getD 2 0
      ∧ (ov.store [(s : Int), (e : Int), (s : Int), (e : Int)]).val.getD 2 0
          ≤ (ov.store [(s : Int), (e : Int), (s : Int), (e : Int)]).val.getD 3 0
      ∧ (ov.store [(s : Int), (e : Int), (s : Int), (e : Int)]).val.getD 3 0 ≤ _
    rw [g0, g1, g2, g3]
    omega

/-- C11 at a concrete input: `(\w+)` on `"ab cd"`; the group spans `(0, 2)` of
the first iteration and `(3, 5)` of the second satisfy `2 <= 3`. -/
theorem MatchAll_groups_progress_witness :
    (compiled .word).re = some .word ∧ ReportsInside demoEngine .word
      ∧ MatchAll demoEngine 3 (compiled .word) "ab cd".toList = .ok (1, afterWordMatchAll)
      ∧ afterWordMatchAll.mSubStrings.tail = [⟨0, 2⟩, ⟨3, 5⟩]
      ∧ ∃ its : List (Int × Ovector),
          LoopRun demoEngine .word (strcpy "ab cd".toList) 0 (compiled .word).ovector its
          ∧ afterWordMatchAll.mSubStrings.tail = groupSpans its
          ∧ List.Pairwise (fun itA itB =>
              ∀ a ∈ iterationGroups itA, ∀ b ∈ iterationGroups itB,
                a.end_ ≤ b.start ∧ a.start ≤ b.start) its :=
  ⟨rfl, word_reportsInside, by decide, rfl,
    MatchAll_groups_progress demoEngine (compiled .word) afterWordMatchAll .word
      "ab cd".toList 3 rfl word_reportsInside (by decide)⟩

end RegEx

/-! ## Uncompiled objects, flags, and `ClearMatch` -/

namespace RegEx

variable {P : Type}

/-- C12: on an uncompiled object (`mFree` set, or `re` is `NULL`) `Match` and
`MatchAll` return -1 and leave every field as it was; the result is the same
whatever the engine is, so the engine is not consulted. -/
theorem uncompiled_match_returns_error (m : RegEx P) (str : CString) (fuel : Nat)
    (h : m.mFree = true ∨ m.re = none) :
    (∀ E : Engine P, Match E m str = .ok (-1, m) ∧ MatchAll E fuel m str = .ok (-1, m))
      ∧ (∀ E1 E2 : Engine P, Match E1 m str = Match E2 m str
          ∧ MatchAll E1 fuel m str = MatchAll E2 fuel m str) := by
  have key : ∀ E : Engine P,
      Match E m str = .ok (-1, m) ∧ MatchAll E fuel m str = .ok (-1, m) := by
    intro E
    rcases h with h | h
    · exact ⟨Match_uncompiled E m str h, MatchAll_uncompiled E fuel m str h⟩
    · constructor
      · unfold Match; rw [h]
      · unfold MatchAll; rw [h]
  refine ⟨key, fun E1 E2 => ⟨?_, ?_⟩⟩
  · rw [(key E1).1, (key E2).1]
  · rw [(key E1).2, (key E2).2]

/-- C12 at concrete inputs: a freshly constructed object, and an object that
holds three spans of an earlier match and was marked free with `isFree`. -/
theorem uncompiled_match_returns_error_witness :
    ((init zeroOvector : RegEx DemoPattern).mFree = true
        ∨ (init zeroOvector : RegEx DemoPattern).re = none)
      ∧ Match demoEngine (init zeroOvector) "ab cd".toList = .ok (-1, init zeroOvector)
      ∧ MatchAll demoEngine 3 (init zeroOvector) "ab cd".toList = .ok (-1, init zeroOvector)
      ∧ ((isFree (withOldMatch .word) true true).2.mFree = true
          ∨ (isFree (withOldMatch .word) true true).2.re = none)
      ∧ Match demoEngine (isFree (withOldMatch .word) true true).2 "ab cd".toList
          = .ok (-1, (isFree (withOldMatch .word) true true).2)
      ∧ (isFree (withOldMatch .word) true true).2.mSubStrings = [⟨0, 8⟩, ⟨0, 3⟩, ⟨4, 8⟩] :=
  have h1 := uncompiled_match_returns_error (init zeroOvector : RegEx DemoPattern)
    "ab cd".toList 3 (Or.inl (by rfl))
  have h2 := uncompiled_match_returns_error (isFree (withOldMatch .word) true true).2
    "ab cd".toList 3 (Or.inl (by rfl))
  ⟨Or.inl (by rfl), (h1.1 demoEngine).1, (h1.1 demoEngine).2, Or.inl (by rfl),
    (h2.1 demoEngine).1, by rfl⟩

theorem flagBit_lor (acc : Nat) (c : Char) (X : List Char) :
    flagBit acc c ||| specBitsOfChars X = acc ||| specBitsOfChars (c :: X) := by
  unfold flagBit specBitsOfChars
  by_cases hi : c = 'i'
  · subst hi
    by_cases h1 : 'i' ∈ X <;> by_cases h2 : 'm' ∈ X <;> by_cases h3 : 's' ∈ X <;>
      by_cases h4 : 'x' ∈ X <;>
      simp [h1, h2, h3, h4, PCRE_CASELESS, PCRE_MULTILINE, PCRE_DOTALL, PCRE_EXTENDED,
        Nat.lor_assoc]
  by_cases hm : c = 'm'
  · subst hm
    by_cases h1 : 'i' ∈ X <;> by_cases h2 : 'm' ∈ X <;> by_cases h3 : 's' ∈ X <;>
      by_cases h4 : 'x' ∈ X <;>
      simp [h1, h2, h3, h4, PCRE_CASELESS, PCRE_MULTILINE, PCRE_DOTALL, PCRE_EXTENDED,
        Nat.lor_assoc]
  by_cases hs : c = 's'
  · subst hs
    by_cases h1 : 'i' ∈ X <;> by_cases h2 : 'm' ∈ X <;> by_cases h3 : 's' ∈ X <;>
      by_cases h4 : 'x' ∈ X <;>
      simp [h1, h2, h3, h4, PCRE_CASELESS, PCRE_MULTILINE, PCRE_DOTALL, PCRE_EXTENDED,
        Nat.lor_assoc]
  by_cases hx : c = 'x'
  · subst hx
    by_cases h1 : 'i' ∈ X <;> by_cases h2 : 'm' ∈ X <;> by_cases h3 : 's' ∈ X <;>
      by_cases h4 : 'x' ∈ X <;>
      simp [h1, h2, h3, h4, PCRE_CASELESS, PCRE_MULTILINE, PCRE_DOTALL, PCRE_EXTENDED,
        Nat.lor_assoc]
  have hi2 : ¬ 'i' = c := fun h => hi h.symm
  have hm2 : ¬ 'm' = c := fun h => hm h.symm
  have hs2 : ¬ 's' = c := fun h => hs h.symm
  have hx2 : ¬ 'x' = c := fun h => hx h.symm
  simp [hi, hm, hs, hx, hi2, hm2, hs2, hx2]

theorem flagLoop_eq (f : CString) :
    ∀ acc : Nat, flagLoop f acc = acc ||| specBitsOfChars (f.takeWhile notNUL) := by
  induction f with
  | nil => intro acc; simp [flagLoop, specBitsOfChars]
  | cons c cs ih =>
    intro acc
    by_cases hc : c = NUL
    · subst hc
      simp [flagLoop, List.takeWhile, notNUL_NUL, specBitsOfChars]
    · simp only [flagLoop, hc, if_false, List.takeWhile, notNUL_eq_true hc]
      rw [ih, flagBit_lor]

theorem translateFlags_eq (flags : Option CString) :
    translateFlags flags = specFlagBits flags := by
  cases flags with
  | none => simp [translateFlags, specFlagBits, flagChars, specBitsOfChars]
  | some f =>
    simp only [translateFlags, specFlagBits, flagChars]
    rw [flagLoop_eq]
    simp

/-- C13: `Compile(pattern, flags)` with a flag string (or `NULL`) is
`Compile(pattern, bits(flags))` on the `int` overload, `bits` being the
bitwise OR of `CASELESS` if `i` occurs, `MULTILINE` if `m`, `DOTALL` if `s`
and `EXTENDED` if `x`; so two flag strings in which the same ones of these
four chars occur give the same result. -/
theorem Compile_flags_refines (E : Engine P) (m : RegEx P) (pattern : CString)
    (flags : Option CString) :
    Compile E m pattern flags = CompileInt E m pattern (specFlagBits flags : Int)
      ∧ ∀ g : Option CString,
          (∀ c ∈ ['i', 'm', 's', 'x'], c ∈ flagChars flags ↔ c ∈ flagChars g) →
          Compile E m pattern flags = Compile E m pattern g := by
  have key : ∀ fl : Option CString,
      Compile E m pattern fl = CompileInt E m pattern (specFlagBits fl : Int) := by
    intro fl
    simp only [Compile, CompileInt, translateFlags_eq]
  refine ⟨key flags, fun g hg => ?_⟩
  rw [key flags, key g]
  have hbits : specFlagBits flags = specFlagBits g := by
    simp only [specFlagBits, specBitsOfChars, hg 'i' (by simp), hg 'm' (by simp),
      hg 's' (by simp), hg 'x' (by simp)]
  rw [hbits]

/-- C13 at a concrete input: the flag strings `"xIiMi"` and `"ix"` both give
`CASELESS | EXTENDED = 9`. -/
theorem Compile_flags_refines_witness :
    (∀ c ∈ ['i', 'm', 's', 'x'],
        c ∈ flagChars (some "xIiMi".toList) ↔ c ∈ flagChars (some "ix".toList))
      ∧ specFlagBits (some "xIiMi".toList) = 9
      ∧ Compile demoEngine (withOldMatch .foo) "(\\w+)".toList (some "xIiMi".toList)
          = CompileInt demoEngine (withOldMatch .foo) "(\\w+)".toList 9
      ∧ Compile demoEngine (withOldMatch .foo) "(\\w+)".toList (some "xIiMi".toList)
          = Compile demoEngine (withOldMatch .foo) "(\\w+)".toList (some "ix".toList)
      ∧ Compile demoEngine (withOldMatch .foo) "(\\w+)".toList (some "xIiMi".toList)
          = (1, compiled .word) :=
  have h := Compile_flags_refines demoEngine (withOldMatch .foo) "(\\w+)".toList
    (some "xIiMi".toList)
  ⟨by decide, by decide, h.1, h.2 (some "ix".toList) (by decide), by decide⟩

/-- C14: `ClearMatch` is idempotent, and it is a total function: it has a
result on every object, also on one that holds no subject copy and no spans
(the object after a first `ClearMatch`, or a freshly constructed one, which it
leaves as it is). -/
theorem ClearMatch_idempotent (m : RegEx P) (ov : Ovector) :
    ClearMatch (ClearMatch m) = ClearMatch m
      ∧ (ClearMatch m).subject = none ∧ (ClearMatch m).mSubStrings = []
      ∧ (∃ m1 : RegEx P, ClearMatch (ClearMatch m) = m1)
      ∧ ClearMatch (init ov : RegEx P) = init ov :=
  ⟨rfl, rfl, rfl, ⟨ClearMatch m, rfl⟩, rfl⟩

/-- C15: `ClearMatch` empties `mSubStrings`, drops `subject` and resets
`mError` and `mErrorOffset`, and changes neither `re` nor `mFree` (nor
`ovector`); on a compiled object a following `Match` or `MatchAll` gives the
same result and the same object as it gives without the `ClearMatch` call. -/
theorem ClearMatch_frame (E : Engine P) (m : RegEx P) (code : P) (str : CString)
    (fuel : Nat) :
    (ClearMatch m).mSubStrings = [] ∧ (ClearMatch m).subject = none
      ∧ (ClearMatch m).mError = none ∧ (ClearMatch m).mErrorOffset = 0
      ∧ (ClearMatch m).re = m.re ∧ (ClearMatch m).mFree = m.mFree
      ∧ (ClearMatch m).ovector = m.ovector
      ∧ (m.re = some code → m.mFree = false →
          Match E (ClearMatch m) str = Match E m str
          ∧ MatchAll E fuel (ClearMatch m) str = MatchAll E fuel m str) := by
  refine ⟨rfl, rfl, rfl, rfl, rfl, rfl, rfl, fun hre hfree => ?_⟩
  obtain ⟨eo, er, re, fr, ov, sj, ss⟩ := m
  dsimp only at hre hfree
  subst hre hfree
  exact ⟨rfl, rfl⟩

/-- C15 at a concrete input: an object holding `(\w+)` and three spans of an
earlier match; with or without `ClearMatch`, `MatchAll` on `"ab cd"` gives 1
and the same three spans. -/
theorem ClearMatch_frame_witness :
    (withOldMatch .word).re = some .word ∧ (withOldMatch .word).mFree = false
      ∧ ClearMatch (withOldMatch .word) = compiled .word
      ∧ Match demoEngine (ClearMatch (withOldMatch .word)) "ab cd".toList
          = Match demoEngine (withOldMatch .word) "ab cd".toList
      ∧ MatchAll demoEngine 3 (ClearMatch (withOldMatch .word)) "ab cd".toList
          = MatchAll demoEngine 3 (withOldMatch .word) "ab cd".toList
      ∧ MatchAll demoEngine 3 (withOldMatch .word) "ab cd".toList
          = .ok (1, afterWordMatchAll) :=
  have h := (ClearMatch_frame demoEngine (withOldMatch .word) .word "ab cd".toList 3).2.2.2.2.2.2.2
    rfl rfl
  ⟨rfl, rfl, by decide, h.1, h.2, by decide⟩

end RegEx

/-! ## The capacity of the result buffer -/

namespace RegEx

variable {P : Type}

/-- C16 as stated fails: were 32 the capacity requested, an engine made to see
32 would answer as the engine itself.  The probe engine, whose error code is
`-(100 + ovecsize)`, leaves -130 in `mErrorOffset` after `Match` and after
`MatchAll`: both pass 30; made to see 32 it leaves -132. -/
theorem exec_capacity_not_32 :
    Match probeEngine probeCompiled "a".toList
        = .ok (-1, { probeCompiled with
                      mErrorOffset := -130, subject := some (strcpy "a".toList) })
      ∧ MatchAll probeEngine 1 probeCompiled "a".toList
        = .ok (-1, { probeCompiled with
                      mErrorOffset := -130, subject := some (strcpy "a".toList) })
      ∧ Match (atCapacity probeEngine 32) probeCompiled "a".toList
        ≠ Match probeEngine probeCompiled "a".toList
      ∧ MatchAll (atCapacity probeEngine 32) 1 probeCompiled "a".toList
        ≠ MatchAll probeEngine 1 probeCompiled "a".toList := by
  refine ⟨by decide, by decide, by decide, by decide⟩

theorem matchAllLoop_atCapacity (E : Engine P) (code : P) :
    ∀ (fuel : Nat) (m : RegEx P) (rc offset : Int),
      matchAllLoop (atCapacity E 30) code fuel m rc offset
        = matchAllLoop E code fuel m rc offset := by
  intro fuel
  induction fuel with
  | zero => intro _ _ _; rfl
  | succ f ih =>
    intro m rc offset
    have hexec : ∀ (subject : CString) (length startoffset options : Int) (ov : Ovector),
        (atCapacity E 30).pcre_exec code subject length startoffset options ov OVECSIZE
          = E.pcre_exec code subject length startoffset options ov OVECSIZE :=
      fun _ _ _ _ _ => rfl
    simp only [matchAllLoop, hexec, ih]

/-- C16, amended: every engine execution issued by `Match` and by `MatchAll`
requests a capacity of 30 offset values, the length of `ovector`, which is
room for 15 pairs: an engine made to see 30 whatever it is passed gives the
same results as the engine itself. -/
theorem exec_capacity_is_30 (E : Engine P) (m : RegEx P) (str : CString) (fuel : Nat) :
    Match (atCapacity E 30) m str = Match E m str
      ∧ MatchAll (atCapacity E 30) fuel m str = MatchAll E fuel m str
      ∧ OVECSIZE = 30 ∧ m.ovector.val.length = 30 ∧ OVECSIZE = 2 * 15 := by
  refine ⟨rfl, ?_, rfl, m.ovector.property, rfl⟩
  simp only [MatchAll, matchAllLoop_atCapacity]

end RegEx

/-! ## `mFree` and `re` along sequences of calls -/

namespace RegEx

variable {P : Type}

/-- C17 as stated fails: on a freshly constructed object the call
`isFree(true, false)` leaves `mFree` false while `re` is `NULL`, and after a
successful `Compile` the call `isFree(true, true)` leaves `mFree` true while
`re` holds the compiled pattern. -/
theorem isFree_setter_breaks_invariant :
    (runOps demoEngine [.isFree true false] (init zeroOvector)).map
        (fun m => (m.mFree, m.re)) = some (false, none)
      ∧ (runOps demoEngine [.compile "foo".toList none, .isFree true true]
          (init zeroOvector)).map (fun m => (m.mFree, m.re)) = some (true, some .foo) := by
  refine ⟨by decide, by decide⟩

theorem compileTail_invariant (E : Engine P) (m : RegEx P) (pattern : CString)
    (iFlags : Int) (h : m.mFree = true) :
    ((compileTail E m pattern iFlags).2.mFree = false
      ↔ (compileTail E m pattern iFlags).2.re.isSome = true) := by
  unfold compileTail
  split
  · simp [h]
  · simp

theorem Match_frame (E : Engine P) (m m1 : RegEx P) (str : CString) (r : Int)
    (h : Match E m str = .ok (r, m1)) : m1.re = m.re ∧ m1.mFree = m.mFree := by
  unfold Match at h
  split at h
  · simp only [Res.ok.injEq, Prod.mk.injEq] at h
    rw [← h.2]; exact ⟨rfl, rfl⟩
  · split at h
    · simp only [Res.ok.injEq, Prod.mk.injEq] at h
      rw [← h.2]; exact ⟨rfl, rfl⟩
    · dsimp only at h
      split at h
      · split at h <;>
        · simp only [Res.ok.injEq, Prod.mk.injEq] at h
          rw [← h.2]; exact ⟨rfl, rfl⟩
      · split at h
        · exact Res.noConfusion h
        · simp only [Res.ok.injEq, Prod.mk.injEq] at h
          rw [← h.2]; exact ⟨rfl, rfl⟩

theorem matchAllFinish_frame (m m1 : RegEx P) (rc r : Int)
    (h : matchAllFinish m rc = .ok (r, m1)) : m1.re = m.re ∧ m1.mFree = m.mFree := by
  unfold matchAllFinish at h
  split at h
  · simp only [Res.ok.injEq, Prod.mk.injEq] at h
    rw [← h.2]; exact ⟨rfl, rfl⟩
  · split at h
    · simp only [Res.ok.injEq, Prod.mk.injEq] at h
      rw [← h.2]; exact ⟨rfl, rfl⟩
    · exact Res.noConfusion h

theorem matchAllLoop_frame (E : Engine P) (code : P) :
    ∀ (fuel : Nat) (m : RegEx P) (rc offset r : Int) (m1 : RegEx P),
      matchAllLoop E code fuel m rc offset = .ok (r, m1) →
      m1.re = m.re ∧ m1.mFree = m.mFree := by
  intro fuel
  induction fuel with
  | zero => intro _ _ _ _ _ h; exact Res.noConfusion h
  | succ f ih =>
    intro m rc offset r m1 h
    unfold matchAllLoop at h
    split at h
    · exact Res.noConfusion h
    · dsimp only at h
      split at h
      · exact (matchAllFinish_frame _ m1 rc r h :)
      · split at h
        · split at h
          · exact (matchAllFinish_frame _ m1 rc r h :)
          · simp only [Res.ok.injEq, Prod.mk.injEq] at h
            rw [← h.2]
            split <;> exact ⟨rfl, rfl⟩
        · split at h
          · exact Res.noConfusion h
          · split at h
            · exact Res.noConfusion h
            · exact (ih _ _ _ r m1 h :)

theorem MatchAll_frame (E : Engine P) (fuel : Nat) (m m1 : RegEx P) (str : CString)
    (r : Int) (h : MatchAll E fuel m str = .ok (r, m1)) :
    m1.re = m.re ∧ m1.mFree = m.mFree := by
  unfold MatchAll at h
  split at h
  · simp only [Res.ok.injEq, Prod.mk.injEq] at h
    rw [← h.2]; exact ⟨rfl, rfl⟩
  · split at h
    · simp only [Res.ok.injEq, Prod.mk.injEq] at h
      rw [← h.2]; exact ⟨rfl, rfl⟩
    · exact (matchAllLoop_frame E _ fuel _ 0 0 r m1 h :)

theorem applyOp_invariant (E : Engine P) (m m1 : RegEx P) (op : Op)
    (hinv : m.mFree = false ↔ m.re.isSome = true) (hop : op.isSetter = false)
    (h : applyOp E m op = some m1) : (m1.mFree = false ↔ m1.re.isSome = true) := by
  cases op with
  | compile pattern flags =>
    simp only [applyOp, Option.some.injEq] at h
    rw [← h]
    unfold Compile
    apply compileTail_invariant
    cases hf : m.mFree <;> simp [Clear, hf]
  | compileInt pattern iFlags =>
    simp only [applyOp, Option.some.injEq] at h
    rw [← h]
    unfold CompileInt
    apply compileTail_invariant
    cases hf : m.mFree <;> simp [Clear, hf]
  | matchOnce str =>
    simp only [applyOp] at h
    split at h
    · next r hr =>
      simp only [Option.some.injEq] at h
      obtain ⟨h1, h2⟩ := Match_frame E m r.2 str r.1 hr
      rw [← h, h1, h2]; exact hinv
    · exact Option.noConfusion h
  | matchAll fuel str =>
    simp only [applyOp] at h
    split at h
    · next r hr =>
      simp only [Option.some.injEq] at h
      obtain ⟨h1, h2⟩ := MatchAll_frame E fuel m r.2 str r.1 hr
      rw [← h, h1, h2]; exact hinv
    · exact Option.noConfusion h
  | clearMatch =>
    simp only [applyOp, Option.some.injEq] at h
    rw [← h]; exact hinv
  | clear =>
    simp only [applyOp, Option.some.injEq] at h
    rw [← h]; simp [Clear]
  | isFree set val =>
    cases set with
    | true => simp [Op.isSetter] at hop
    | false =>
      simp only [applyOp, isFree, Option.some.injEq] at h
      rw [← h]; exact hinv

theorem runOps_invariant (E : Engine P) (ops : List Op) :
    ∀ (m m1 : RegEx P), (m.mFree = false ↔ m.re.isSome = true) →
      (∀ op ∈ ops, op.isSetter = false) → runOps E ops m = some m1 →
      (m1.mFree = false ↔ m1.re.isSome = true) := by
  induction ops with
  | nil =>
    intro m m1 hinv _ h
    simp only [runOps, Option.some.injEq] at h
    rw [← h]; exact hinv
  | cons op rest ih =>
    intro m m1 hinv hops h
    simp only [runOps] at h
    split at h
    · exact Option.noConfusion h
    · next m2 hm2 =>
      exact ih m2 m1
        (applyOp_invariant E m m2 op hinv (hops op (List.mem_cons_self _ _)) hm2)
        (fun o ho => hops o (List.mem_cons_of_mem _ ho)) h

/-- C17, amended: in every state reached from a freshly constructed object by
a sequence of calls of `Compile` (both overloads, succeeding or failing),
`Match`, `MatchAll`, `ClearMatch`, `Clear` and `isFree` as a getter, `mFree` is
false exactly when `re` is not `NULL`. -/
theorem mFree_iff_re_without_setter (E : Engine P) (ops : List Op) (ov : Ovector)
    (m : RegEx P) (hops : ∀ op ∈ ops, op.isSetter = false)
    (h : runOps E ops (init ov) = some m) :
    (m.mFree = false ↔ m.re.isSome = true) :=
  runOps_invariant E ops (init ov) m (by simp [init]) hops h

/-- C17, amended, at concrete inputs: a rejected and a successful compile
followed by a `MatchAll`; and a compile, a `Match`, a getter call, a
`ClearMatch`, a rejected recompile and a `Clear`. -/
theorem mFree_iff_re_without_setter_witness :
    (∀ op ∈ [Op.compile "(".toList none, Op.compileInt "(\\w+)".toList 1,
          Op.matchAll 3 "ab cd".toList], op.isSetter = false)
      ∧ runOps demoEngine [Op.compile "(".toList none, Op.compileInt "(\\w+)".toList 1,
          Op.matchAll 3 "ab cd".toList] (init zeroOvector) = some afterWordMatchAll
      ∧ (afterWordMatchAll.mFree = false ↔ afterWordMatchAll.re.isSome = true)
      ∧ (∀ op ∈ [Op.compileInt "(\\w+)".toList 1, Op.matchOnce "ab".toList,
          Op.isFree false true, Op.clearMatch, Op.compile "(".toList (some "i".toList),
          Op.clear], op.isSetter = false)
      ∧ runOps demoEngine [Op.compileInt "(\\w+)".toList 1, Op.matchOnce "ab".toList,
          Op.isFree false true, Op.clearMatch, Op.compile "(".toList (some "i".toList),
          Op.clear] (init zeroOvector) = some (init (zeroOvector.store [0, 2, 0, 2]))
      ∧ ((init (zeroOvector.store [0, 2, 0, 2]) : RegEx DemoPattern).mFree = false
          ↔ (init (zeroOvector.store [0, 2, 0, 2]) : RegEx DemoPattern).re.isSome = true) :=
  ⟨by decide, by decide,
    mFree_iff_re_without_setter demoEngine
      [Op.compile "(".toList none, Op.compileInt "(\\w+)".toList 1,
        Op.matchAll 3 "ab cd".toList] zeroOvector afterWordMatchAll (by decide) (by decide),
    by decide, by decide,
    mFree_iff_re_without_setter demoEngine
      [Op.compileInt "(\\w+)".toList 1, Op.matchOnce "ab".toList,
        Op.isFree false true, Op.clearMatch, Op.compile "(".toList (some "i".toList),
        Op.clear] zeroOvector (init (zeroOvector.store [0, 2, 0, 2])) (by decide) (by decide)⟩

end RegEx

/-! ## Stored spans and the subject copy -/

namespace RegEx

variable {P : Type}

/-- `GetSubstring` on a stored span whose two offsets lie inside the subject
copy, in whatever order: it returns, having read inside the copy only. -/
theorem GetSubstring_eq_of_bounds (m : RegEx P) (s : Int) (hs : isInt s)
    (buffer : List Char) (max : Int) (subj : CString) (start stop : Int)
    (hs0 : 0 ≤ s) (hsub : m.mSubStrings[s.toNat]? = some ⟨start, stop⟩)
    (hsubj : m.subject = some subj)
    (h0 : 0 ≤ start) (h1 : start ≤ (subj.length : Int)) (h2 : stop ≤ (subj.length : Int))
    (hbuf : (min (stop - start) max).toNat < buffer.length) :
    GetSubstring m s buffer max
      = .ok ⟨false, (subj.drop start.toNat).take (min (stop - start) max).toNat
          ++ NUL :: buffer.drop ((min (stop - start) max).toNat + 1)⟩ := by
  have hlen : s.toNat < m.mSubStrings.length := by
    by_contra hc
    rw [List.getElem?_eq_none (by omega)] at hsub
    exact Option.noConfusion hsub
  have hrange : ¬ (size_t_cast s ≥ m.mSubStrings.length ∨ s < 0) := by
    rw [size_t_cast_of_nonneg s hs hs0]; omega
  have hcopy := copyChars_eq subj start 0 (min (stop - start) max).toNat buffer h0
    (by omega) (by omega)
  unfold GetSubstring
  rw [if_neg hrange]
  simp only [hsub, hsubj, Option.getD_some, hcopy]
  have hl : (min (stop - start) max).toNat
      < (List.take 0 buffer ++ List.take (min (stop - start) max).toNat
          (List.drop (start.toNat + 0) subj)
        ++ List.drop (0 + (min (stop - start) max).toNat) buffer).length := by
    simp only [List.take_zero, List.nil_append, List.length_append, List.length_take,
      List.length_drop]
    omega
  rw [if_pos hl]
  congr 2
  simp only [List.take_zero, List.nil_append, Nat.add_zero, Nat.zero_add]
  have hlt : ((subj.drop start.toNat).take (min (stop - start) max).toNat).length
      = (min (stop - start) max).toNat := by
    simp only [List.length_take, List.length_drop]; omega
  rw [List.set_append_right _ _ (by omega), hlt, Nat.sub_self]
  congr 1
  rw [List.drop_eq_getElem_cons hbuf]
  rfl

/-- When both offsets of every stored span lie inside the subject copy,
`GetSubstring` returns for every index, given a buffer with more than `max`
positions. -/
theorem GetSubstring_returns (m : RegEx P) (subj : CString)
    (hsubj : m.subject = some subj)
    (hall : ∀ sp ∈ m.mSubStrings,
      0 ≤ sp.start ∧ sp.start ≤ (subj.length : Int) ∧ sp.end_ ≤ (subj.length : Int))
    (s : Int) (hs : isInt s) (buffer : List Char) (max : Int)
    (hbuf : max.toNat < buffer.length) :
    ∃ r : SubstrResult, GetSubstring m s buffer max = .ok r := by
  by_cases hr : s < 0 ∨ Count m ≤ s
  · exact ⟨_, GetSubstring_out_of_range m s hs buffer max hr⟩
  · have h0 : 0 ≤ s := by omega
    have hlt : s.toNat < m.mSubStrings.length := by
      unfold Count at hr; omega
    have hget : m.mSubStrings[s.toNat]? = some (m.mSubStrings[s.toNat]) :=
      List.getElem?_eq_getElem hlt
    obtain ⟨a, b, c⟩ := hall _ (List.getElem_mem hlt)
    exact ⟨_, GetSubstring_eq_of_bounds m s hs buffer max subj _ _ h0 hget hsubj a b c
      (by omega)⟩

theorem spansFrom_valid (E : Engine P) (code : P) (hE : ReportsValid E code)
    (subject : CString) (length startoffset options : Int) (ov : Ovector) (ovecsize : Nat)
    (s n : Nat)
    (hn : ((s + n : Nat) : Int)
      ≤ max (E.pcre_exec code subject length startoffset options ov ovecsize).1 0) :
    ∀ sp ∈ spansFrom (E.pcre_exec code subject length startoffset options ov ovecsize).2 s n,
      sp.validFor length := by
  intro sp hsp
  obtain ⟨k, hk1, hk2, rfl⟩ := mem_spansFrom _ s n sp hsp
  exact hE subject length startoffset options ov ovecsize k (by omega)

theorem LoopRun_valid (E : Engine P) (code : P) (subj : CString)
    (hE : ReportsValid E code) (its : List (Int × Ovector)) :
    ∀ (offset : Int) (ov : Ovector), LoopRun E code subj offset ov its →
      ∀ sp ∈ groupSpans its, sp.validFor (strlen subj : Int) := by
  induction its with
  | nil => intro _ _ _ sp hsp; simp [groupSpans] at hsp
  | cons hd rest ih =>
    intro offset ov hrun sp hsp
    obtain ⟨hexec, h1, hrest⟩ := hrun
    rw [groupSpans_cons, List.mem_append] at hsp
    rcases hsp with hsp | hsp
    · have hv := spansFrom_valid E code hE subj (strlen subj : Int) offset 0 ov OVECSIZE
        1 (hd.1 - 1).toNat (by rw [hexec]; omega)
      rw [hexec] at hv
      exact hv sp hsp
    · exact ih _ _ hrest sp hsp

theorem Match_matched_spans (E : Engine P) (m m1 : RegEx P) (code : P) (str : CString)
    (hre : m.re = some code) (h : Match E m str = .ok (1, m1)) :
    m1.subject = some (strcpy str)
      ∧ m1.mSubStrings
          = spansFrom (E.pcre_exec code (strcpy str) (strlen (strcpy str) : Int) 0 0
              m.ovector OVECSIZE).2 0
            (E.pcre_exec code (strcpy str) (strlen (strcpy str) : Int) 0 0
              m.ovector OVECSIZE).1.toNat := by
  refine ⟨Match_ok_subject E m m1 str h, ?_⟩
  simp only [Match, hre] at h
  split at h
  · simp at h
  · split at h
    · split at h <;> simp at h
    · split at h
      · exact Res.noConfusion h
      · next subs happ =>
        simp only [Res.ok.injEq, Prod.mk.injEq, true_and] at h
        rw [← h]
        have := appendSubs_some _ _ _ _ _ happ
        simpa [ClearMatch] using this

theorem store6_getD (ov : Ovector) (a b c d e f : Int) :
    (ov.store [a, b, c, d, e, f]).val.getD 0 0 = a
      ∧ (ov.store [a, b, c, d, e, f]).val.getD 1 0 = b
      ∧ (ov.store [a, b, c, d, e, f]).val.getD 2 0 = c
      ∧ (ov.store [a, b, c, d, e, f]).val.getD 3 0 = d
      ∧ (ov.store [a, b, c, d, e, f]).val.getD 4 0 = e
      ∧ (ov.store [a, b, c, d, e, f]).val.getD 5 0 = f :=
  ⟨rfl, rfl, rfl, rfl, rfl, rfl⟩

theorem lookaheadSearch_bounds (cs : List Char) :
    ∀ (pos p : Nat), lookaheadSearch cs pos = some p → pos ≤ p ∧ p + 3 ≤ pos + cs.length := by
  induction cs with
  | nil => intro pos p h; simp [lookaheadSearch] at h
  | cons c cs ih =>
    intro pos p h
    unfold lookaheadSearch at h
    split at h
    · next hc =>
      simp only [Option.some.injEq] at h
      subst h
      have h2 : 2 ≤ cs.length := by
        rcases cs with _ | ⟨d, _ | ⟨e, r⟩⟩ <;> simp at hc ⊢
      simp only [List.length_cons]
      omega
    · have := ih _ _ h
      simp only [List.length_cons]
      omega

/-- What the engine for `(?=..(c))(a)` answers: a negative code, or three
spans `(p, p+1)`, `(p+2, p+3)`, `(p, p+1)` with `p + 3 <= length`. -/
theorem lookahead_exec (subject : CString) (length startoffset options : Int) (ov : Ovector)
    (ovecsize : Nat) :
    (lookaheadExec () subject length startoffset options ov ovecsize).1 < 0
      ∨ ∃ p : Nat, lookaheadExec () subject length startoffset options ov ovecsize
            = (3, ov.store [(p : Int), ((p + 1 : Nat) : Int), ((p + 2 : Nat) : Int),
                ((p + 3 : Nat) : Int), (p : Int), ((p + 1 : Nat) : Int)])
          ∧ ((p + 3 : Nat) : Int) ≤ length := by
  unfold lookaheadExec
  by_cases hg : startoffset < 0 ∨ length < startoffset
  · left
    rw [if_pos hg]
    show PCRE_ERROR_BADOFFSET < 0
    decide
  · rw [if_neg hg]
    split
    · left
      show PCRE_ERROR_NOMATCH < 0
      decide
    · next p hp =>
      right
      refine ⟨p, rfl, ?_⟩
      have hb := (lookaheadSearch_bounds _ _ _ hp).2
      simp only [List.length_drop, List.length_take] at hb
      omega

theorem lookahead_reportsValid : ReportsValid lookaheadEngine () := by
  intro subject length startoffset options ov ovecsize k hk
  have hk : (k : Int) < (lookaheadExec () subject length startoffset options ov ovecsize).1 :=
    hk
  show RegExSub.validFor
    ⟨(lookaheadExec () subject length startoffset options ov ovecsize).2.val.getD (2 * k) 0,
      (lookaheadExec () subject length startoffset options ov ovecsize).2.val.getD
        (2 * k + 1) 0⟩ length
  rcases lookahead_exec subject length startoffset options ov ovecsize with hneg | ⟨p, he, hb⟩
  · omega
  · rw [he] at hk ⊢
    obtain ⟨g0, g1, g2, g3, g4, g5⟩ := store6_getD ov (p : Int) ((p + 1 : Nat) : Int)
      ((p + 2 : Nat) : Int) ((p + 3 : Nat) : Int) (p : Int) ((p + 1 : Nat) : Int)
    have hk3 : k = 0 ∨ k = 1 ∨ k = 2 := by
      have : (k : Int) < 3 := hk
      omega
    unfold RegExSub.validFor
    rcases hk3 with rfl | rfl | rfl
    · show 0 ≤ _ ∧ _ ≤ _ ∧ _ ≤ length
      rw [show (2 * 0) = 0 from rfl, show (2 * 0 + 1) = 1 from rfl, g0, g1]
      push_cast at hb ⊢
      omega
    · show 0 ≤ _ ∧ _ ≤ _ ∧ _ ≤ length
      rw [show (2 * 1) = 2 from rfl, show (2 * 1 + 1) = 3 from rfl, g2, g3]
      push_cast at hb ⊢
      omega
    · show 0 ≤ _ ∧ _ ≤ _ ∧ _ ≤ length
      rw [show (2 * 2) = 4 from rfl, show (2 * 2 + 1) = 5 from rfl, g4, g5]
      push_cast at hb ⊢
      omega

/-- C18 as stated fails: the engine for `(?=..(c))(a)` reports only spans with
`0 <= start <= end <= length`, and `MatchAll` on `"abc"` returns 1 with the
span `(2, 1)` at index 0, made of the start of group 1, `(2, 3)`, and the end
of group 2, `(0, 1)`: its start is greater than its end. -/
theorem synthetic_span_start_after_end :
    ReportsValid lookaheadEngine ()
      ∧ MatchAll lookaheadEngine 2 probeCompiled "abc".toList
          = .ok (1, afterLookaheadMatchAll)
      ∧ afterLookaheadMatchAll.mSubStrings.head? = some ⟨2, 1⟩
      ∧ ¬ RegExSub.validFor ⟨2, 1⟩ (strlen (strcpy "abc".toList) : Int) :=
  ⟨lookahead_reportsValid, by decide, rfl, by decide⟩

theorem word_reportsValid : ReportsValid demoEngine .word := by
  intro subject length startoffset options ov ovecsize k hk
  have hk : (k : Int) < (demoExec .word subject length startoffset options ov ovecsize).1 := hk
  show RegExSub.validFor
    ⟨(demoExec .word subject length startoffset options ov ovecsize).2.val.getD (2 * k) 0,
      (demoExec .word subject length startoffset options ov ovecsize).2.val.getD
        (2 * k + 1) 0⟩ length
  rcases word_exec subject length startoffset options ov ovecsize with
    hneg | ⟨s, e, he, _, hse, hb⟩
  · omega
  · rw [he] at hk ⊢
    obtain ⟨g0, g1, g2, g3⟩ := store4_getD ov (s : Int) (e : Int) (s : Int) (e : Int)
    have hk2 : k = 0 ∨ k = 1 := by
      have : (k : Int) < 2 := hk
      omega
    unfold RegExSub.validFor
    rcases hk2 with rfl | rfl
    · show 0 ≤ _ ∧ _ ≤ _ ∧ _ ≤ length
      rw [show (2 * 0) = 0 from rfl, show (2 * 0 + 1) = 1 from rfl, g0, g1]
      dsimp only
      omega
    · show 0 ≤ _ ∧ _ ≤ _ ∧ _ ≤ length
      rw [show (2 * 1) = 2 from rfl, show (2 * 1 + 1) = 3 from rfl, g2, g3]
      dsimp only
      omega

/-- C18, amended: with an engine whose reported spans all satisfy
`0 <= start <= end <= length`, after `Match` returns 1 every stored span
satisfies `0 <= start <= end <= strlen(subject)`; after `MatchAll` returns 1
every stored span at an index `>= 1` does, and both offsets of the span at
index 0 lie in `0 .. strlen(subject)`; in both cases `GetSubstring` returns
for every index and every buffer with more than `max` positions, so it reads
inside the subject copy only. -/
theorem stored_spans_within_subject (E : Engine P) (m m1 : RegEx P) (code : P)
    (str : CString) (fuel : Nat)
    (hre : m.re = some code) (hE : ReportsValid E code) :
    (Match E m str = .ok (1, m1) →
        m1.subject = some (strcpy str)
        ∧ (∀ sp ∈ m1.mSubStrings, sp.validFor (strlen (strcpy str) : Int))
        ∧ ∀ (s : Int) (buffer : List Char) (max : Int), isInt s →
            max.toNat < buffer.length →
            ∃ r : SubstrResult, GetSubstring m1 s buffer max = .ok r)
      ∧ (MatchAll E fuel m str = .ok (1, m1) →
          m1.subject = some (strcpy str)
          ∧ (∀ sp ∈ m1.mSubStrings.tail, sp.validFor (strlen (strcpy str) : Int))
          ∧ (∃ whole : RegExSub, m1.mSubStrings.head? = some whole
              ∧ 0 ≤ whole.start ∧ whole.start ≤ (strlen (strcpy str) : Int)
              ∧ 0 ≤ whole.end_ ∧ whole.end_ ≤ (strlen (strcpy str) : Int))
          ∧ ∀ (s : Int) (buffer : List Char) (max : Int), isInt s →
              max.toNat < buffer.length →
              ∃ r : SubstrResult, GetSubstring m1 s buffer max = .ok r) := by
  have hlen : (strlen (strcpy str) : Int) ≤ ((strcpy str).length : Int) := by
    exact_mod_cast strlen_le_length (strcpy str)
  constructor
  · intro h
    obtain ⟨hsubj, hsubs⟩ := Match_matched_spans E m m1 code str hre h
    have hv : ∀ sp ∈ m1.mSubStrings, sp.validFor (strlen (strcpy str) : Int) := by
      rw [hsubs]
      exact spansFrom_valid E code hE _ _ _ _ _ _ 0 _ (by omega)
    refine ⟨hsubj, hv, fun s buffer max hs hbuf => ?_⟩
    refine GetSubstring_returns m1 (strcpy str) hsubj (fun sp hsp => ?_) s hs buffer max hbuf
    obtain ⟨a, b, c⟩ := hv sp hsp
    exact ⟨a, by omega, by omega⟩
  · intro h
    simp only [MatchAll, hre] at h
    split at h
    · simp at h
    · obtain ⟨its, hrun, ht, hsubj, first, last, hf, hl, hw⟩ :=
        matchAllLoop_matched_run E code (strcpy str) fuel _ 0 0 m1 rfl h
      have ht2 : m1.mSubStrings.tail = groupSpans its := by simpa [ClearMatch] using ht
      have hf2 : (groupSpans its).head? = some first := by simpa [ClearMatch] using hf
      have hl2 : (groupSpans its).getLast? = some last := by simpa [ClearMatch] using hl
      have hg := LoopRun_valid E code (strcpy str) hE its 0 _ hrun
      have hv : ∀ sp ∈ m1.mSubStrings.tail, sp.validFor (strlen (strcpy str) : Int) := by
        rw [ht2]; exact hg
      obtain ⟨f1, f2, f3⟩ := hg first (List.mem_of_mem_head? hf2)
      obtain ⟨l1, l2, l3⟩ := hg last (List.mem_of_mem_getLast? hl2)
      have hwhole : 0 ≤ first.start ∧ first.start ≤ (strlen (strcpy str) : Int)
          ∧ 0 ≤ last.end_ ∧ last.end_ ≤ (strlen (strcpy str) : Int) :=
        ⟨f1, by omega, by omega, l3⟩
      refine ⟨hsubj, hv, ⟨_, hw, hwhole⟩, fun s buffer max hs hbuf => ?_⟩
      refine GetSubstring_returns m1 (strcpy str) hsubj (fun sp hsp => ?_) s hs buffer max hbuf
      have hcases : sp = ⟨first.start, last.end_⟩ ∨ sp ∈ m1.mSubStrings.tail := by
        cases hm : m1.mSubStrings with
        | nil => rw [hm] at hsp; simp at hsp
        | cons x xs =>
          rw [hm] at hsp hw
          simp only [List.head?_cons, Option.some.injEq] at hw
          rw [List.mem_cons] at hsp
          rcases hsp with hsp | hsp
          · left; rw [hsp, hw]
          · right; exact hsp
      rcases hcases with rfl | hin
      · obtain ⟨w1, w2, w3, w4⟩ := hwhole
        refine ⟨w1, ?_, ?_⟩
        · show first.start ≤ ((strcpy str).length : Int)
          omega
        · show last.end_ ≤ ((strcpy str).length : Int)
          omega
      · obtain ⟨a, b, c⟩ := hv sp hin
        exact ⟨a, by omega, by omega⟩

/-- C18, amended, at a concrete input: `(\w+)`, `Match` on `"  ab cd"` and
`MatchAll` on `"ab cd"`. -/
theorem stored_spans_within_subject_witness :
    (compiled .word).re = some .word ∧ ReportsValid demoEngine .word
      ∧ Match demoEngine (compiled .word) "  ab cd".toList = .ok (1, afterWordMatch)
      ∧ (∀ sp ∈ afterWordMatch.mSubStrings,
          sp.validFor (strlen (strcpy "  ab cd".toList) : Int))
      ∧ MatchAll demoEngine 3 (compiled .word) "ab cd".toList = .ok (1, afterWordMatchAll)
      ∧ (∀ sp ∈ afterWordMatchAll.mSubStrings.tail,
          sp.validFor (strlen (strcpy "ab cd".toList) : Int))
      ∧ (∃ r : SubstrResult, GetSubstring afterWordMatchAll 0 "zzzz".toList 3 = .ok r) :=
  have h1 := (stored_spans_within_subject demoEngine (compiled .word) afterWordMatch .word
    "  ab cd".toList 3 rfl word_reportsValid).1 (by decide)
  have h2 := (stored_spans_within_subject demoEngine (compiled .word) afterWordMatchAll .word
    "ab cd".toList 3 rfl word_reportsValid).2 (by decide)
  ⟨rfl, word_reportsValid, by decide, h1.2.1, by decide, h2.2.1,
    h2.2.2.2 0 "zzzz".toList 3 (by decide) (by decide)⟩

end RegEx

/-! ## A match reported with the count 0 -/

namespace RegEx

variable {P : Type}

/-- Whenever `MatchAll` returns 1, `mSubStrings` holds a span at index 0. -/
theorem MatchAll_matched_has_span (E : Engine P) (fuel : Nat) (m m1 : RegEx P)
    (str : CString) (h : MatchAll E fuel m str = .ok (1, m1)) :
    1 ≤ Count m1 ∧ ∀ (buffer b : List Char) (max : Int),
      GetSubstring m1 0 buffer max ≠ .ok ⟨true, b⟩ := by
  unfold MatchAll at h
  split at h
  · simp at h
  · split at h
    · simp at h
    · obtain ⟨_, _, _, _, _, _, _, hw⟩ :=
        matchAllLoop_matched_run E _ (strcpy str) fuel _ 0 0 m1 rfl h
      have hc : 1 ≤ Count m1 := by
        unfold Count
        cases hm : m1.mSubStrings with
        | nil => rw [hm] at hw; simp at hw
        | cons x xs => simp
      exact ⟨hc, fun buffer b max =>
        GetSubstring_in_range m1 0 (by decide) buffer max (by omega) b⟩

/-- C19, the code at the failing input: for the pattern of ten groups on ten
`a` the engine returns 0, its signal that the result array was too small, and
has stored the whole match `(0, 10)` in the array.  `Match` takes 0 as a span
count: it stores nothing and returns 1, so `Count()` is 0 and
`GetSubstring(0, ...)` returns `NULL`.  (`MatchAll` on the same input leaves
its loop at once and returns 0.) -/
theorem Match_matched_without_spans :
    tenGroupsEngine.pcre_exec () (strcpy "aaaaaaaaaa".toList)
        (strlen (strcpy "aaaaaaaaaa".toList) : Int) 0 0 zeroOvector OVECSIZE
        = (0, afterTenGroupsMatch.ovector)
      ∧ Match tenGroupsEngine probeCompiled "aaaaaaaaaa".toList
          = .ok (1, afterTenGroupsMatch)
      ∧ Count afterTenGroupsMatch = 0
      ∧ GetSubstring afterTenGroupsMatch 0 "zzzz".toList 3 = .ok ⟨true, "zzzz".toList⟩
      ∧ MatchAll tenGroupsEngine 1 probeCompiled "aaaaaaaaaa".toList
          = .ok (0, afterTenGroupsMatch) := by
  refine ⟨by decide, by decide, by decide, by decide, by decide⟩

end RegEx

